import Mathlib

set_option autoImplicit false

/-!
# cosign: fetching signatures, attestations and attachments (`pkg/cosign/fetch.go`)

A shallow embedding of `pkg/cosign/fetch.go`.  The registry client, the worker
pool and the JSON decoder are collaborators the file calls; their observable
behaviour is data here:

* a call whose error the source tests before it touches the value is an
  `Except GoError _`;
* a call whose value the source stores or uses beside the error (the five
  signature getters, `att.Payload()`) is the Go pair `Ret`;
* the order in which the pool completes the worker closures is an explicit
  `schedule`.
-/

namespace Cosign

/-! ## Go values -/

/-- A Go `[]byte`, and the bytes of a Go `string`. -/
abbrev Bytes := List UInt8

/-- A Go `error` value that is not nil, identified by its message. -/
structure GoError where
  msg : String
deriving DecidableEq, Repr

/-- `errors.Wrap(err, message)` for a non-nil `err`. -/
def GoError.Wrap (err : GoError) (message : String) : GoError :=
  ⟨message ++ ": " ++ err.msg⟩

/-- An error slot that is set once: it keeps the error it holds and takes a
new one only when it is nil (the pool's `resultOnce`, the decoder's
`saveError`). -/
def firstError (result err : Option GoError) : Option GoError :=
  match result with
  | some e => some e
  | none => err

/-- The Go pair `(value, error)` a getter returns; `err = none` is a nil error. -/
structure Ret (α : Type) where
  val : α
  err : Option GoError
deriving DecidableEq, Repr

/-- The Go pair `(result, error)` a fetch function returns; `val = none` is the
nil slice or the nil pointer. -/
structure Result (α : Type) where
  val : Option α
  err : Option GoError
deriving DecidableEq, Repr

/-- What `ctx.Err()` would report once `k` worker closures have completed:
`none` until the context is cancelled or past its deadline. -/
structure Context where
  Err : Nat → Option GoError

/-- Modelled from the spec: ImageReference, "a repository plus either a tag or a
content digest" (`name.Reference` of go-containerregistry). -/
inductive Reference where
  | tag (repository : String) (tag : String)
  | digest (repository : String) (digest : String)
deriving DecidableEq, Repr

/-- `ref.Context()`: the repository of a reference. -/
def Reference.Context : Reference → String
  | .tag r _ => r
  | .digest r _ => r

/-- `ref.String()`, what `%v` and `%s` print for a reference. -/
def Reference.String : Reference → String
  | .tag r t => r ++ ":" ++ t
  | .digest r d => r ++ "@" ++ d

/-- `repo.Digest(d)`: the digest-qualified reference into a repository. -/
def Digest (repository : String) (d : String) : Reference :=
  .digest repository d

/-! ## Records of `fetch.go` -/

/-- `SignedPayload` (fetch.go:36). `Cert` and `Bundle` are pointers. -/
structure SignedPayload (Certificate RekorBundle : Type) where
  Base64Signature : Bytes
  Payload : Bytes
  Cert : Option Certificate
  Chain : List Certificate
  Bundle : Option RekorBundle
deriving DecidableEq, Repr

/-- The zero value `make([]SignedPayload, n)` fills its slots with. -/
def SignedPayload.zero {Certificate RekorBundle : Type} :
    SignedPayload Certificate RekorBundle :=
  ⟨[], [], none, [], none⟩

/-- `LocalSignedPayload` (fetch.go:44). -/
structure LocalSignedPayload (RekorBundle : Type) where
  Base64Signature : Bytes
  Cert : Bytes
  Bundle : Option RekorBundle
deriving DecidableEq, Repr

/-- `Signatures` (fetch.go:50). -/
structure Signatures where
  KeyID : Bytes
  Sig : Bytes
deriving DecidableEq, Repr

/-- `AttestationPayload` (fetch.go:55). `Signatures = none` is the nil slice. -/
structure AttestationPayload where
  PayloadType : Bytes
  PayLoad : Bytes
  Signatures : Option (List Signatures)
deriving DecidableEq, Repr

/-- The zero value `make([]AttestationPayload, n)` fills its slots with. -/
def AttestationPayload.zero : AttestationPayload :=
  ⟨[], [], none⟩

/-- `AttachmentPayload` (fetch.go:61). -/
structure AttachmentPayload where
  Payload : Bytes
  FileMediaType : String
deriving DecidableEq, Repr

/-! ## The registry client as seen by `fetch.go` -/

/-- One `oci.Signature`: what each getter returns. -/
structure Signature (Certificate RekorBundle : Type) where
  Payload : Ret Bytes
  Base64Signature : Ret Bytes
  Cert : Ret (Option Certificate)
  Chain : Ret (List Certificate)
  Bundle : Ret (Option RekorBundle)

/-- An `oci.Signatures` collection: what `Get()` returns. -/
structure Collection (Certificate RekorBundle : Type) where
  Get : Except GoError (List (Signature Certificate RekorBundle))

/-- An `oci.File`: what its two getters return. -/
structure File where
  Payload : Except GoError Bytes
  FileMediaType : Except GoError String

/-- Modelled from the spec: Platform, "structured {OS, architecture, optional
variant, optional OS version}" (`v1.Platform` of go-containerregistry, whose
declaration is not among the source files). An absent optional field is the
empty string. -/
structure Platform where
  OS : String
  Architecture : String
  Variant : String
  OSVersion : String
deriving DecidableEq, Repr

/-- Modelled from the spec: `Platform.Equals`, "equality is exact-field match":
every field of the two platforms is compared. -/
def Platform.Equals (p o : Platform) : Bool :=
  p.OS == o.OS && p.Architecture == o.Architecture &&
    p.Variant == o.Variant && p.OSVersion == o.OSVersion

/-- A `v1.Descriptor` as far as `fetch.go` reads it: `desc.Digest.String()` and
the pointer `desc.Platform` (`none` is the nil pointer, a descriptor without
platform info). -/
structure Descriptor where
  Digest : String
  Platform : Option Platform
deriving DecidableEq, Repr

/-- A `v1.IndexManifest`: the descriptors in manifest order. -/
structure IndexManifest where
  Manifests : List Descriptor
deriving DecidableEq, Repr

/-- An `oci.SignedEntity` as returned by `ociremote.SignedEntity`.
`IndexManifest = none` is an entity that is not an `oci.SignedImageIndex`
(the type assertion of fetch.go:180 fails); `some r` is an index whose
`IndexManifest()` returns `r`. -/
structure SignedEntity (Certificate RekorBundle : Type) where
  Signatures : Except GoError (Collection Certificate RekorBundle)
  Attestations : Except GoError (Collection Certificate RekorBundle)
  Attachment : String → Except GoError File
  IndexManifest : Option (Except GoError IndexManifest)

/-- The registry behind `ociremote.SignedEntity(ref, opts...)`. -/
structure Registry (Certificate RekorBundle : Type) where
  SignedEntity : Reference → Except GoError (SignedEntity Certificate RekorBundle)

/-! ## JSON text (`encoding/json`)

`json.Unmarshal` first checks that the data is one JSON value, then stores the
value into its target. The grammar and the unquoting of strings are modelled
here; the text of the library's error messages is not. -/

/-- A JSON value as `encoding/json` reads it: strings are already unquoted,
numbers keep their literal. -/
inductive JVal where
  | null
  | bool (b : Bool)
  | number (literal : Bytes)
  | string (s : Bytes)
  | array (elems : List JVal)
  | object (members : List (Bytes × JVal))

/-- A UTF-8 continuation byte. -/
def isCont (b : UInt8) : Bool := 0x80 ≤ b && b ≤ 0xBF

/-- Whether `b1` may follow the leading byte `b0` of a sequence of three or
four bytes (the accept ranges of `unicode/utf8`: no overlong form, no
surrogate, nothing past U+10FFFF). -/
def secondOK (b0 b1 : UInt8) : Bool :=
  (if b0 = 0xE0 then 0xA0 else if b0 = 0xF0 then 0x90 else 0x80) ≤ b1 &&
    b1 ≤ (if b0 = 0xED then 0x9F else if b0 = 0xF4 then 0x8F else 0xBF)

/-- The size of the well-formed UTF-8 sequence at the head of the bytes, as
`utf8.DecodeRune` accepts it; `none` where it answers `(RuneError, 1)`. -/
def runeLen : Bytes → Option Nat
  | [] => none
  | b0 :: rest =>
    if b0 < 0x80 then some 1
    else if b0 < 0xC2 then none
    else if b0 < 0xE0 then
      match rest with
      | b1 :: _ => if isCont b1 then some 2 else none
      | _ => none
    else if b0 < 0xF0 then
      match rest with
      | b1 :: b2 :: _ => if secondOK b0 b1 && isCont b2 then some 3 else none
      | _ => none
    else if b0 < 0xF5 then
      match rest with
      | b1 :: b2 :: b3 :: _ =>
        if secondOK b0 b1 && isCont b2 && isCont b3 then some 4 else none
      | _ => none
    else none

/-- The bytes of U+FFFD, the replacement rune. -/
def replacement : Bytes := [0xEF, 0xBF, 0xBD]

/-- `utf8.AppendRune`: the UTF-8 encoding of a code point; a surrogate or a
value past U+10FFFF encodes as U+FFFD. -/
def encodeRune (r : Nat) : Bytes :=
  if r < 0x80 then [UInt8.ofNat r]
  else if r < 0x800 then [UInt8.ofNat (0xC0 + r / 64), UInt8.ofNat (0x80 + r % 64)]
  else if 0xD800 ≤ r ∧ r < 0xE000 then replacement
  else if r < 0x10000 then
    [UInt8.ofNat (0xE0 + r / 4096), UInt8.ofNat (0x80 + r / 64 % 64), UInt8.ofNat (0x80 + r % 64)]
  else if r < 0x110000 then
    [UInt8.ofNat (0xF0 + r / 262144), UInt8.ofNat (0x80 + r / 4096 % 64),
      UInt8.ofNat (0x80 + r / 64 % 64), UInt8.ofNat (0x80 + r % 64)]
  else replacement

/-- The string a Go string becomes when `json.Marshal` writes it and
`json.Unmarshal` reads it back: each byte that is not part of a well-formed
UTF-8 sequence is replaced by U+FFFD ("coerced to valid UTF-8"). The counter is
the number of bytes still to copy from the sequence being read. -/
def toValidUTF8 : Nat → Bytes → Bytes
  | _, [] => []
  | k + 1, b :: rest => b :: toValidUTF8 k rest
  | 0, b :: rest =>
    match runeLen (b :: rest) with
    | some n => b :: toValidUTF8 (n - 1) rest
    | none => replacement ++ toValidUTF8 0 rest

/-- Whether the bytes are well-formed UTF-8 (`utf8.Valid`). The counter is the
number of bytes still to pass over in the sequence being read. -/
def validUTF8 : Nat → Bytes → Bool
  | 0, [] => true
  | _ + 1, [] => false
  | k + 1, _ :: rest => validUTF8 k rest
  | 0, b :: rest =>
    match runeLen (b :: rest) with
    | some n => validUTF8 (n - 1) rest
    | none => false

/-- JSON white space. -/
def isSpace (b : UInt8) : Bool := b == 0x20 || b == 0x09 || b == 0x0A || b == 0x0D

/-- Drop leading white space. -/
def skipSpace : Bytes → Bytes
  | [] => []
  | b :: rest => if isSpace b then skipSpace rest else b :: rest

/-- The value of a hexadecimal digit. -/
def hexVal (b : UInt8) : Option Nat :=
  if 0x30 ≤ b && b ≤ 0x39 then some (b.toNat - 0x30)
  else if 0x61 ≤ b && b ≤ 0x66 then some (b.toNat - 0x61 + 10)
  else if 0x41 ≤ b && b ≤ 0x46 then some (b.toNat - 0x41 + 10)
  else none

/-- The code unit of four hexadecimal digits (`getu4` past the `\u`). -/
def hex4 (h1 h2 h3 h4 : UInt8) : Option Nat :=
  match hexVal h1, hexVal h2, hexVal h3, hexVal h4 with
  | some a, some b, some c, some d => some (((a * 16 + b) * 16 + c) * 16 + d)
  | _, _, _, _ => none

/-- The byte a two-character escape stands for. -/
def simpleEscape (c : UInt8) : Option UInt8 :=
  if c = 0x22 then some 0x22        -- \"
  else if c = 0x5C then some 0x5C   -- \\
  else if c = 0x2F then some 0x2F   -- \/
  else if c = 0x62 then some 0x08   -- \b
  else if c = 0x66 then some 0x0C   -- \f
  else if c = 0x6E then some 0x0A   -- \n
  else if c = 0x72 then some 0x0D   -- \r
  else if c = 0x74 then some 0x09   -- \t
  else none

/-- Put bytes in front of the string of a reading. -/
def prepend (bs : Bytes) (r : Option (Bytes × Bytes)) : Option (Bytes × Bytes) :=
  r.map (fun p => (bs ++ p.1, p.2))

/-- The code unit of a `\uXXXX` escape at the head of the bytes, if there is one. -/
def peekU4 : Bytes → Option Nat
  | e1 :: e2 :: g1 :: g2 :: g3 :: g4 :: _ =>
    if e1 = 0x5C ∧ e2 = 0x75 then hex4 g1 g2 g3 g4 else none
  | _ => none

/-- `utf16.DecodeRune`: the code point of a surrogate pair, if the two code
units are one. -/
def surrogatePair (hi : Nat) (next : Option Nat) : Option Nat :=
  match next with
  | some lo =>
    if 0xD800 ≤ hi ∧ hi < 0xDC00 ∧ 0xDC00 ≤ lo ∧ lo < 0xE000 then
      some (0x10000 + (hi - 0xD800) * 0x400 + (lo - 0xDC00))
    else none
  | none => none

/-- How the reader of a string body treats the next byte. -/
inductive Mode where
  /-- The next byte starts a character, an escape or the closing quote. -/
  | read
  /-- Another `k + 1` bytes of the UTF-8 sequence being read are copied. -/
  | copy (k : Nat)
  /-- Another `k + 1` bytes of an escape already decoded are passed over. -/
  | skip (k : Nat)

/-- The mode after one more byte in a mode with `k + 1` bytes to go. -/
def Mode.next (again : Nat → Mode) : Nat → Mode
  | 0 => .read
  | k + 1 => again k

/-- Read the body of a JSON string, from behind the opening quote up to the
closing one, and unquote it: the unquoted bytes and what follows the closing
quote. A control byte, a bad escape or a missing closing quote is an error; a
byte outside a well-formed UTF-8 sequence is replaced by U+FFFD, as is half of
a surrogate pair. -/
def parseString : Mode → Bytes → Option (Bytes × Bytes)
  | _, [] => none
  | .copy k, b :: rest => prepend [b] (parseString (Mode.next .copy k) rest)
  | .skip k, _ :: rest => parseString (Mode.next .skip k) rest
  | .read, b :: rest =>
    if b = 0x22 then some ([], rest)
    else if b < 0x20 then none
    else if b = 0x5C then
      match rest with
      | [] => none
      | c :: rest1 =>
        if c = 0x75 then
          match rest1 with
          | h1 :: h2 :: h3 :: h4 :: rest2 =>
            match hex4 h1 h2 h3 h4 with
            | none => none
            | some u =>
              match surrogatePair u (peekU4 rest2) with
              | some r => prepend (encodeRune r) (parseString (.skip 5) rest2)
              | none => prepend (encodeRune u) (parseString .read rest2)
          | _ => none
        else
          match simpleEscape c with
          | some x => prepend [x] (parseString .read rest1)
          | none => none
    else
      match runeLen (b :: rest) with
      | some n => prepend [b] (parseString (Mode.next .copy (n - 1)) rest)
      | none => prepend replacement (parseString .read rest)

/-- A decimal digit. -/
def isDigit (b : UInt8) : Bool := 0x30 ≤ b && b ≤ 0x39

/-- Split off the leading digits. -/
def takeDigits : Bytes → Bytes × Bytes
  | [] => ([], [])
  | b :: rest =>
    if isDigit b then ((b :: (takeDigits rest).1), (takeDigits rest).2) else ([], b :: rest)

/-- One or more digits. -/
def digits1 (s : Bytes) : Option (Bytes × Bytes) :=
  match takeDigits s with
  | ([], _) => none
  | r => some r

/-- The optional exponent of a number. -/
def parseExponent (s : Bytes) : Option (Bytes × Bytes) :=
  match s with
  | e :: rest =>
    if e = 0x65 ∨ e = 0x45 then
      match rest with
      | sg :: rest1 =>
        if sg = 0x2B ∨ sg = 0x2D then prepend [e, sg] (digits1 rest1)
        else prepend [e] (digits1 rest)
      | [] => none
    else some ([], s)
  | [] => some ([], s)

/-- The optional fraction of a number, then its optional exponent. -/
def parseFraction (s : Bytes) : Option (Bytes × Bytes) :=
  match s with
  | d :: rest =>
    if d = 0x2E then
      match digits1 rest with
      | some (ds, rest1) => prepend (d :: ds) (parseExponent rest1)
      | none => none
    else parseExponent s
  | [] => some ([], s)

/-- A JSON number: its literal and what follows it. -/
def parseNumber (s : Bytes) : Option (Bytes × Bytes) :=
  let unsigned (s : Bytes) : Option (Bytes × Bytes) :=
    match s with
    | d :: rest =>
      if d = 0x30 then prepend [d] (parseFraction rest)
      else if isDigit d then prepend (d :: (takeDigits rest).1) (parseFraction (takeDigits rest).2)
      else none
    | [] => none
  match s with
  | m :: rest => if m = 0x2D then prepend [m] (unsigned rest) else unsigned s
  | [] => none

/-- Whether the bytes start with the given word; what follows it. -/
def stripWord (word : Bytes) (s : Bytes) : Option Bytes :=
  if word.isPrefixOf s then some (s.drop word.length) else none

mutual

/-- One JSON value, after optional white space: the value and what follows it.
The first argument bounds the number of nested readings. -/
def parseValue : Nat → Bytes → Option (JVal × Bytes)
  | 0, _ => none
  | fuel + 1, s =>
    match skipSpace s with
    | [] => none
    | b :: rest =>
      if b = 0x22 then (parseString .read rest).map (fun r => (.string r.1, r.2))
      else if b = 0x7B then
        match skipSpace rest with
        | [] => none
        | c :: rest1 =>
          if c = 0x7D then some (.object [], rest1)
          else (parseMembers fuel (c :: rest1)).map (fun r => (.object r.1, r.2))
      else if b = 0x5B then
        match skipSpace rest with
        | [] => none
        | c :: rest1 =>
          if c = 0x5D then some (.array [], rest1)
          else (parseElems fuel (c :: rest1)).map (fun r => (.array r.1, r.2))
      else if b = 0x6E then (stripWord [0x75, 0x6C, 0x6C] rest).map (fun r => (.null, r))
      else if b = 0x74 then (stripWord [0x72, 0x75, 0x65] rest).map (fun r => (.bool true, r))
      else if b = 0x66 then
        (stripWord [0x61, 0x6C, 0x73, 0x65] rest).map (fun r => (.bool false, r))
      else (parseNumber (b :: rest)).map (fun r => (.number r.1, r.2))

/-- The elements of an array from behind `[` or `,` up to the closing `]`. -/
def parseElems : Nat → Bytes → Option (List JVal × Bytes)
  | 0, _ => none
  | fuel + 1, s =>
    match parseValue fuel s with
    | none => none
    | some (v, rest) =>
      match skipSpace rest with
      | [] => none
      | c :: rest1 =>
        if c = 0x2C then (parseElems fuel rest1).map (fun r => (v :: r.1, r.2))
        else if c = 0x5D then some ([v], rest1)
        else none

/-- The members of an object from behind `{` or `,` up to the closing `}`. -/
def parseMembers : Nat → Bytes → Option (List (Bytes × JVal) × Bytes)
  | 0, _ => none
  | fuel + 1, s =>
    match skipSpace s with
    | [] => none
    | q :: rest =>
      if q = 0x22 then
        match parseString .read rest with
        | none => none
        | some (key, rest1) =>
          match skipSpace rest1 with
          | [] => none
          | c :: rest2 =>
            if c = 0x3A then
              match parseValue fuel rest2 with
              | none => none
              | some (v, rest3) =>
                match skipSpace rest3 with
                | [] => none
                | d :: rest4 =>
                  if d = 0x2C then
                    (parseMembers fuel rest4).map (fun r => ((key, v) :: r.1, r.2))
                  else if d = 0x7D then some ([(key, v)], rest4)
                  else none
            else none
      else none

end

/-- The JSON value the data is, if it is one value between optional white
space and nothing else (`checkValid`); `none` is a syntax error. Every reading
consumes a byte, so twice the length bounds their nesting. -/
def parseJSON (data : Bytes) : Option JVal :=
  match parseValue (2 * data.length + 2) data with
  | some (v, rest) => if skipSpace rest = [] then some v else none
  | none => none

/-- The bytes of an ASCII text. -/
def ascii (text : String) : Bytes := text.toList.map (fun c => UInt8.ofNat c.toNat)

/-! ## Storing JSON values into the records (`encoding/json`) -/

/-- The folded form of an object key: two keys select the same struct field
when their folded forms agree (ASCII letters without case, U+017F as `s`,
U+212A as `k`). The counter is the number of bytes of a folded character still
to pass over. -/
def foldName : Nat → Bytes → Bytes
  | _, [] => []
  | k + 1, _ :: rest => foldName k rest
  | 0, b :: rest =>
    if [0xC5, 0xBF].isPrefixOf (b :: rest) then 0x73 :: foldName 1 rest
    else if [0xE2, 0x84, 0xAA].isPrefixOf (b :: rest) then 0x6B :: foldName 2 rest
    else (if 0x41 ≤ b && b ≤ 0x5A then b + 0x20 else b) :: foldName 0 rest

/-- The struct field an object key selects: the field of that exact name, else
the first field whose name folds to the same form; `none` for a key no field
answers to, whose value is passed over. -/
def lookupField {F : Type} (fields : List (Bytes × F)) (key : Bytes) : Option F :=
  match fields.find? (fun f => f.1 == key) with
  | some f => some f.2
  | none => (fields.find? (fun f => foldName 0 f.1 == foldName 0 key)).map (fun f => f.2)

/-- The name `encoding/json` gives the kind of a JSON value in its errors. -/
def JVal.kind : JVal → String
  | .null => "null"
  | .bool _ => "bool"
  | .number _ => "number"
  | .string _ => "string"
  | .array _ => "array"
  | .object _ => "object"

/-- An `*json.UnmarshalTypeError`. -/
def typeError (j : JVal) (target : String) : GoError :=
  ⟨"json: cannot unmarshal " ++ j.kind ++ " into Go value of type " ++ target⟩

/-- The `*json.SyntaxError` for data that is not one JSON value. -/
def invalidJSON : GoError := ⟨"json: invalid JSON input"⟩

/-- Store a JSON value into a Go `string`: a string is stored, `null` leaves
the old value, anything else is a type error that leaves the old value. -/
def storeString (j : JVal) (old : Bytes) : Bytes × Option GoError :=
  match j with
  | .string s => (s, none)
  | .null => (old, none)
  | other => (old, some (typeError other "string"))

/-- The fields of `Signatures` with their `json` tags. -/
inductive SignaturesField where
  | KeyID
  | Sig

/-- The tags of fetch.go:51-52. -/
def signaturesFields : List (Bytes × SignaturesField) :=
  [(ascii "keyid", .KeyID), (ascii "sig", .Sig)]

/-- Store one object member into a `Signatures`; the first error is kept. -/
def storeSignaturesMember (p : Signatures × Option GoError) (m : Bytes × JVal) :
    Signatures × Option GoError :=
  match lookupField signaturesFields m.1 with
  | none => p
  | some .KeyID =>
    ({ p.1 with KeyID := (storeString m.2 p.1.KeyID).1 },
      firstError p.2 (storeString m.2 p.1.KeyID).2)
  | some .Sig =>
    ({ p.1 with Sig := (storeString m.2 p.1.Sig).1 },
      firstError p.2 (storeString m.2 p.1.Sig).2)

/-- Store a JSON value into a `Signatures`. -/
def storeSignatures (j : JVal) (old : Signatures) : Signatures × Option GoError :=
  match j with
  | .object members => members.foldl storeSignaturesMember (old, none)
  | .null => (old, none)
  | other => (old, some (typeError other "cosign.Signatures"))

/-- Store the elements of an array into a slice: element `i` is stored into
the old element `i` when the old slice has one, into a zero value otherwise. -/
def storeElems : List JVal → List Signatures → List Signatures × Option GoError
  | [], _ => ([], none)
  | j :: js, old =>
    ((storeSignatures j (old.headD ⟨[], []⟩)).1 :: (storeElems js old.tail).1,
      firstError (storeSignatures j (old.headD ⟨[], []⟩)).2 (storeElems js old.tail).2)

/-- Store a JSON value into a `[]Signatures`: `null` stores the nil slice, an
array its elements. -/
def storeSlice (j : JVal) (old : Option (List Signatures)) :
    Option (List Signatures) × Option GoError :=
  match j with
  | .array elems => (some (storeElems elems (old.getD [])).1, (storeElems elems (old.getD [])).2)
  | .null => (none, none)
  | other => (old, some (typeError other "[]cosign.Signatures"))

/-- The fields of `AttestationPayload` with their `json` tags. -/
inductive AttestationField where
  | PayloadType
  | PayLoad
  | Signatures

/-- The tags of fetch.go:56-58. -/
def attestationFields : List (Bytes × AttestationField) :=
  [(ascii "payloadType", .PayloadType), (ascii "payload", .PayLoad),
    (ascii "signatures", .Signatures)]

/-- Store one object member into an `AttestationPayload`. -/
def storeAttestationMember (p : AttestationPayload × Option GoError) (m : Bytes × JVal) :
    AttestationPayload × Option GoError :=
  match lookupField attestationFields m.1 with
  | none => p
  | some .PayloadType =>
    ({ p.1 with PayloadType := (storeString m.2 p.1.PayloadType).1 },
      firstError p.2 (storeString m.2 p.1.PayloadType).2)
  | some .PayLoad =>
    ({ p.1 with PayLoad := (storeString m.2 p.1.PayLoad).1 },
      firstError p.2 (storeString m.2 p.1.PayLoad).2)
  | some .Signatures =>
    ({ p.1 with Signatures := (storeSlice m.2 p.1.Signatures).1 },
      firstError p.2 (storeSlice m.2 p.1.Signatures).2)

/-- `json.Unmarshal(data, &slot)` for a `slot` of type `AttestationPayload`:
the slot afterwards and the error. Data that is not JSON leaves the slot
alone; `null` stores nothing and is no error. -/
def UnmarshalAttestation (data : Bytes) (slot : AttestationPayload) :
    AttestationPayload × Option GoError :=
  match parseJSON data with
  | none => (slot, some invalidJSON)
  | some (.object members) => members.foldl storeAttestationMember (slot, none)
  | some .null => (slot, none)
  | some other => (slot, some (typeError other "cosign.AttestationPayload"))

/-- How `encoding/json` writes and reads a `bundle.RekorBundle`, a struct
declared outside the source files: the value `new` allocates, the text
`json.Marshal` writes for a bundle, and the storing of a JSON value other than
`null` into a bundle. -/
structure BundleJSON (RekorBundle : Type) where
  zero : RekorBundle
  Marshal : RekorBundle → Bytes
  store : JVal → RekorBundle → RekorBundle × Option GoError

/-- The fields of `LocalSignedPayload` with their `json` tags. -/
inductive LocalField where
  | Base64Signature
  | Cert
  | Bundle

/-- The tags of fetch.go:45-47. -/
def localFields : List (Bytes × LocalField) :=
  [(ascii "base64Signature", .Base64Signature), (ascii "cert", .Cert),
    (ascii "rekorBundle", .Bundle)]

/-- Store one object member into a `LocalSignedPayload`. A `null` for the
bundle stores the nil pointer; any other value is stored into the bundle the
pointer holds, a new one if it is nil. -/
def storeLocalMember {RekorBundle : Type} (codec : BundleJSON RekorBundle)
    (p : LocalSignedPayload RekorBundle × Option GoError) (m : Bytes × JVal) :
    LocalSignedPayload RekorBundle × Option GoError :=
  match lookupField localFields m.1 with
  | none => p
  | some .Base64Signature =>
    ({ p.1 with Base64Signature := (storeString m.2 p.1.Base64Signature).1 },
      firstError p.2 (storeString m.2 p.1.Base64Signature).2)
  | some .Cert =>
    ({ p.1 with Cert := (storeString m.2 p.1.Cert).1 },
      firstError p.2 (storeString m.2 p.1.Cert).2)
  | some .Bundle =>
    match m.2 with
    | .null => ({ p.1 with Bundle := none }, p.2)
    | j =>
      ({ p.1 with Bundle := some (codec.store j (p.1.Bundle.getD codec.zero)).1 },
        firstError p.2 (codec.store j (p.1.Bundle.getD codec.zero)).2)

/-- `json.Unmarshal(data, &b)` for a `b` of type `*LocalSignedPayload`: the
pointer afterwards and the error. `null` stores the nil pointer and is no
error; any other value is stored into the payload the pointer holds, a new one
if it is nil. -/
def UnmarshalLocal {RekorBundle : Type} (codec : BundleJSON RekorBundle) (data : Bytes)
    (b : Option (LocalSignedPayload RekorBundle)) :
    Option (LocalSignedPayload RekorBundle) × Option GoError :=
  match parseJSON data with
  | none => (b, some invalidJSON)
  | some .null => (none, none)
  | some (.object members) =>
    (some (members.foldl (storeLocalMember codec) (b.getD ⟨[], [], none⟩, none)).1,
      (members.foldl (storeLocalMember codec) (b.getD ⟨[], [], none⟩, none)).2)
  | some other => (some (b.getD ⟨[], [], none⟩), some (typeError other "cosign.LocalSignedPayload"))

/-! ## Writing a `LocalSignedPayload` (`json.Marshal`) -/

/-- A lower-case hexadecimal digit. -/
def hexDigit (n : Nat) : UInt8 :=
  if n < 10 then UInt8.ofNat (0x30 + n) else UInt8.ofNat (0x61 + (n - 10))

/-- What `json.Marshal` writes for one ASCII byte of a string: quotes,
backslashes, control bytes and `<`, `>`, `&` are escaped. -/
def quoteASCII (b : UInt8) : Bytes :=
  if b = 0x22 ∨ b = 0x5C then [0x5C, b]
  else if b = 0x0A then [0x5C, 0x6E]
  else if b = 0x0D then [0x5C, 0x72]
  else if b = 0x09 then [0x5C, 0x74]
  else if b < 0x20 ∨ b = 0x3C ∨ b = 0x3E ∨ b = 0x26 then
    [0x5C, 0x75, 0x30, 0x30, hexDigit (b.toNat / 16), hexDigit (b.toNat % 16)]
  else [b]

/-- What `json.Marshal` writes between the quotes for a Go string: a byte
outside a well-formed UTF-8 sequence is written as the escape of U+FFFD,
U+2028 and U+2029 are escaped, every other sequence is copied. -/
def quoteBody : Mode → Bytes → Bytes
  | _, [] => []
  | .copy k, b :: rest => b :: quoteBody (Mode.next .copy k) rest
  | .skip k, _ :: rest => quoteBody (Mode.next .skip k) rest
  | .read, b :: rest =>
    if b < 0x80 then quoteASCII b ++ quoteBody .read rest
    else
      match runeLen (b :: rest) with
      | none => ascii "\\ufffd" ++ quoteBody .read rest
      | some n =>
        if [0xE2, 0x80, 0xA8].isPrefixOf (b :: rest) then
          ascii "\\u2028" ++ quoteBody (.skip 1) rest
        else if [0xE2, 0x80, 0xA9].isPrefixOf (b :: rest) then
          ascii "\\u2029" ++ quoteBody (.skip 1) rest
        else b :: quoteBody (Mode.next .copy (n - 1)) rest

/-- The JSON string `json.Marshal` writes for a Go string. -/
def quoteString (s : Bytes) : Bytes :=
  0x22 :: quoteBody .read s ++ [0x22]

/-- The members of an object as `json.Marshal` writes them: each key quoted,
a colon, the text of the value, and commas in between. -/
def writeMembers : List (Bytes × Bytes) → Bytes
  | [] => []
  | [m] => quoteString m.1 ++ 0x3A :: m.2
  | m :: rest => quoteString m.1 ++ 0x3A :: m.2 ++ 0x2C :: writeMembers rest

/-- The fields `json.Marshal` writes for a `LocalSignedPayload`, each under its
tag of fetch.go:45-47 with the text of its value, in the order of the struct;
an empty `Cert` and a nil `Bundle` are left out (`omitempty`). -/
def localMembers {RekorBundle : Type} (codec : BundleJSON RekorBundle)
    (v : LocalSignedPayload RekorBundle) : List (Bytes × Bytes) :=
  [(ascii "base64Signature", quoteString v.Base64Signature)]
    ++ (if v.Cert = [] then [] else [(ascii "cert", quoteString v.Cert)])
    ++ (match v.Bundle with
        | none => []
        | some b => [(ascii "rekorBundle", codec.Marshal b)])

/-- `json.Marshal(v)` for a `LocalSignedPayload`. -/
def MarshalLocal {RekorBundle : Type} (codec : BundleJSON RekorBundle)
    (v : LocalSignedPayload RekorBundle) : Bytes :=
  0x7B :: writeMembers (localMembers codec v) ++ [0x7D]

/-- A bundle goes through `encoding/json` unchanged: the text `json.Marshal`
writes for it reads, whatever follows it, as a JSON value other than `null`,
and storing that value into a new bundle gives the bundle back without an
error. -/
def BundleJSON.RoundTrips {RekorBundle : Type} (codec : BundleJSON RekorBundle)
    (b : RekorBundle) : Prop :=
  ∃ j : JVal, j ≠ JVal.null ∧
    (∀ (fuel : Nat) (rest : Bytes), 2 * (codec.Marshal b).length + 2 ≤ fuel →
      parseValue fuel (codec.Marshal b ++ rest) = some (j, rest)) ∧
    codec.store j codec.zero = (b, none)

/-! ## The worker pool (`knative.dev/pkg/pool`) -/

/-- A closure handed to `g.Go`: it updates the memory it captured and returns
its error. -/
abbrev Closure (σ : Type) := σ → σ × Option GoError

/-- One closure runs to completion: the memory it leaves, and the pool's
`result`, which takes the closure's error if it is the first. -/
def poolStep {σ : Type} (closures : List (Closure σ)) (st : σ × Option GoError) (i : Nat) :
    σ × Option GoError :=
  match closures[i]? with
  | none => st
  | some w => ((w st.1).1, firstError st.2 (w st.1).2)

/-- `g := pool.New(n)`, one `g.Go` per closure, then `g.Wait()`: the closures
run to completion in the order `schedule` lists their positions, and `Wait`
returns the first error recorded, or nil. -/
def poolWait {σ : Type} (closures : List (Closure σ)) (schedule : List Nat) (mem : σ) :
    σ × Option GoError :=
  schedule.foldl (poolStep closures) (mem, none)

/-- The assignment `slice[i].field = v`, as a function on the slice. -/
def setSlot {α : Type} (l : List α) (i : Nat) (f : α → α) : List α :=
  match l[i]? with
  | some x => l.set i (f x)
  | none => l

section Fetch

variable {Certificate RekorBundle : Type}

/-! ## `FetchSignaturesForReference` (fetch.go:72) -/

/-- The closure of fetch.go:94 for index `i` and member `sig`. Each getter's
value is stored in slot `i` before its error is tested. -/
def sigClosure (i : Nat) (sig : Signature Certificate RekorBundle) :
    Closure (List (SignedPayload Certificate RekorBundle)) := fun signatures =>
  let signatures := setSlot signatures i (fun s => { s with Payload := sig.Payload.val })
  match sig.Payload.err with
  | some err => (signatures, some err)
  | none =>
  let signatures :=
    setSlot signatures i (fun s => { s with Base64Signature := sig.Base64Signature.val })
  match sig.Base64Signature.err with
  | some err => (signatures, some err)
  | none =>
  let signatures := setSlot signatures i (fun s => { s with Cert := sig.Cert.val })
  match sig.Cert.err with
  | some err => (signatures, some err)
  | none =>
  let signatures := setSlot signatures i (fun s => { s with Chain := sig.Chain.val })
  match sig.Chain.err with
  | some err => (signatures, some err)
  | none =>
  let signatures := setSlot signatures i (fun s => { s with Bundle := sig.Bundle.val })
  (signatures, sig.Bundle.err)

/-- `FetchSignaturesForReference(ctx, ref, opts...)`, with the registry behind
`opts` and the order in which the pool completes the closures made explicit. -/
def FetchSignaturesForReference (reg : Registry Certificate RekorBundle)
    (schedule : List Nat) (_ctx : Context) (ref : Reference) :
    Result (List (SignedPayload Certificate RekorBundle)) :=
  match reg.SignedEntity ref with
  | .error err => ⟨none, some err⟩
  | .ok simg =>
    match simg.Signatures with
    | .error err => ⟨none, some (err.Wrap "remote image")⟩
    | .ok sigs =>
      match sigs.Get with
      | .error err => ⟨none, some (err.Wrap "fetching signatures")⟩
      | .ok l =>
        if l.length = 0 then
          ⟨none, some ⟨"no signatures associated with " ++ ref.String⟩⟩
        else
          let signatures := List.replicate l.length SignedPayload.zero
          let closures := l.enum.map (fun p => sigClosure p.1 p.2)
          match poolWait closures schedule signatures with
          | (_, some err) => ⟨none, some err⟩
          | (signatures, none) => ⟨some signatures, none⟩

/-! ## `FetchAttestationsForReference` (fetch.go:122) -/

/-- The closure of fetch.go:144 for index `i` and member `att`: the error of
`att.Payload()` is dropped, its bytes are unmarshalled into slot `i`. -/
def attClosure (i : Nat) (att : Signature Certificate RekorBundle) :
    Closure (List AttestationPayload) := fun attestations =>
  match attestations[i]? with
  | none => (attestations, none)
  | some slot =>
    (attestations.set i (UnmarshalAttestation att.Payload.val slot).1,
      (UnmarshalAttestation att.Payload.val slot).2)

/-- `FetchAttestationsForReference(ctx, ref, opts...)`, with the registry
behind `opts` and the order in which the pool completes the closures made
explicit. -/
def FetchAttestationsForReference (reg : Registry Certificate RekorBundle)
    (schedule : List Nat) (_ctx : Context) (ref : Reference) :
    Result (List AttestationPayload) :=
  match reg.SignedEntity ref with
  | .error err => ⟨none, some err⟩
  | .ok simg =>
    match simg.Attestations with
    | .error err => ⟨none, some (err.Wrap "remote image")⟩
    | .ok atts =>
      match atts.Get with
      | .error err => ⟨none, some (err.Wrap "fetching attestations")⟩
      | .ok l =>
        if l.length = 0 then
          ⟨none, some ⟨"no attestations associated with " ++ ref.String⟩⟩
        else
          let attestations := List.replicate l.length AttestationPayload.zero
          let closures := l.enum.map (fun p => attClosure p.1 p.2)
          match poolWait closures schedule attestations with
          | (_, some err) => ⟨none, some err⟩
          | (attestations, none) => ⟨some attestations, none⟩

/-! ## Attachments (fetch.go:160-223) -/

/-- A call on the registry client or on a handle it returned. -/
inductive Call where
  | SignedEntity (ref : Reference)
  | IndexManifest
  | Attachment (name : String)
  | Payload
  | FileMediaType
deriving DecidableEq, Repr

/-- How a call of a fetch function ends: it returns its Go pair, or it panics. -/
inductive Outcome (α : Type) where
  | returned (r : Result α)
  | panicked
deriving DecidableEq, Repr

/-- `attachmentPayload(file)` (fetch.go:208), with the calls it makes. -/
def attachmentPayload (file : File) : Result AttachmentPayload × List Call :=
  match file.Payload with
  | .error err => (⟨none, some err⟩, [.Payload])
  | .ok payload =>
    match file.FileMediaType with
    | .error err => (⟨none, some err⟩, [.Payload, .FileMediaType])
    | .ok mt => (⟨some ⟨payload, mt⟩, none⟩, [.Payload, .FileMediaType])

/-- `FetchAttachmentForReference(ctx, ref, attachment, opts...)` (fetch.go:160),
with the calls it makes. -/
def FetchAttachmentForReference (reg : Registry Certificate RekorBundle) (_ctx : Context)
    (ref : Reference) (attachment : String) : Result AttachmentPayload × List Call :=
  match reg.SignedEntity ref with
  | .error err => (⟨none, some err⟩, [.SignedEntity ref])
  | .ok simg =>
    match simg.Attachment attachment with
    | .error err => (⟨none, some err⟩, [.SignedEntity ref, .Attachment attachment])
    | .ok file =>
      ((attachmentPayload file).1,
        [.SignedEntity ref, .Attachment attachment] ++ (attachmentPayload file).2)

/-- The loop of fetch.go:188-205 over the descriptors still to visit.
`desc.Platform.Equals(platform)` is called through the pointer `desc.Platform`
with no nil test before it, and `Equals` reads the fields of the platform it is
called on: on a nil pointer the call panics. `format` is what `%+v` prints for
a platform. -/
def scanManifests (format : Platform → String) (reg : Registry Certificate RekorBundle)
    (ref : Reference) (platform : Platform) (attachment : String) :
    List Descriptor → Outcome AttachmentPayload × List Call
  | [] =>
    (.returned ⟨none, some ⟨"no child with platform " ++ format platform ++ " in index "
      ++ ref.String⟩⟩, [])
  | desc :: rest =>
    match desc.Platform with
    | none => (.panicked, [])
    | some p =>
      if !p.Equals platform then scanManifests format reg ref platform attachment rest
      else
        match reg.SignedEntity (Digest ref.Context desc.Digest) with
        | .error err => (.returned ⟨none, some err⟩, [.SignedEntity (Digest ref.Context desc.Digest)])
        | .ok simg =>
          match simg.Attachment attachment with
          | .error err =>
            (.returned ⟨none, some err⟩,
              [.SignedEntity (Digest ref.Context desc.Digest), .Attachment attachment])
          | .ok file =>
            (.returned (attachmentPayload file).1,
              [.SignedEntity (Digest ref.Context desc.Digest), .Attachment attachment]
                ++ (attachmentPayload file).2)

/-- `FetchAttachmentFromIndex(ctx, ref, platform, attachment, opts...)`
(fetch.go:174), with the calls it makes. -/
def FetchAttachmentFromIndex (format : Platform → String)
    (reg : Registry Certificate RekorBundle) (_ctx : Context) (ref : Reference)
    (platform : Platform) (attachment : String) : Outcome AttachmentPayload × List Call :=
  match reg.SignedEntity ref with
  | .error err => (.returned ⟨none, some err⟩, [.SignedEntity ref])
  | .ok sidx =>
    match sidx.IndexManifest with
    | none => (.returned ⟨none, some ⟨ref.String ++ " is not an index"⟩⟩, [.SignedEntity ref])
    | some (.error err) => (.returned ⟨none, some err⟩, [.SignedEntity ref, .IndexManifest])
    | some (.ok im) =>
      ((scanManifests format reg ref platform attachment im.Manifests).1,
        [.SignedEntity ref, .IndexManifest]
          ++ (scanManifests format reg ref platform attachment im.Manifests).2)

/-! ## `FetchLocalSignedPayloadFromPath` (fetch.go:226) -/

/-- `FetchLocalSignedPayloadFromPath(path)`; `readFile` is `ioutil.ReadFile` on
the file system of the call. -/
def FetchLocalSignedPayloadFromPath (codec : BundleJSON RekorBundle)
    (readFile : String → Except GoError Bytes) (path : String) :
    Result (LocalSignedPayload RekorBundle) :=
  match readFile path with
  | .error err => ⟨none, some (err.Wrap ("reading " ++ path))⟩
  | .ok contents =>
    match UnmarshalLocal codec contents none with
    | (_, some err) => ⟨none, some err⟩
    | (b, none) => ⟨b, none⟩

end Fetch

/-! ## Concrete inputs -/

/-- A tagged reference. -/
def exRef : Reference := .tag "registry.example/app" "v1"

/-- A context that is never cancelled. -/
def liveCtx : Context := ⟨fun _ => none⟩

/-- A context cancelled before the call. -/
def cancelledCtx : Context := ⟨fun _ => some ⟨"context canceled"⟩⟩

/-- A signature whose getters all succeed. -/
def sigA : Signature Nat Nat :=
  ⟨⟨ascii "payload-a", none⟩, ⟨ascii "c2lnLWE=", none⟩, ⟨some 1, none⟩, ⟨[1, 2], none⟩,
    ⟨none, none⟩⟩

/-- A second signature whose getters all succeed. -/
def sigB : Signature Nat Nat :=
  ⟨⟨ascii "payload-b", none⟩, ⟨ascii "c2lnLWI=", none⟩, ⟨none, none⟩, ⟨[], none⟩,
    ⟨some 7, none⟩⟩

/-- A signature whose `Cert()` fails. -/
def sigBad : Signature Nat Nat :=
  ⟨⟨ascii "payload-c", none⟩, ⟨ascii "c2lnLWM=", none⟩, ⟨none, some ⟨"bad certificate"⟩⟩,
    ⟨[], none⟩, ⟨none, none⟩⟩

/-- An attestation layer with a given payload. -/
def attOf (payload : Ret Bytes) : Signature Nat Nat :=
  ⟨payload, ⟨[], none⟩, ⟨none, none⟩, ⟨[], none⟩, ⟨none, none⟩⟩

/-- A well-formed attestation. -/
def attGood : Signature Nat Nat :=
  attOf ⟨ascii "\x7b\"payloadType\":\"t\",\"payload\":\"cA==\",\"signatures\":[\x7b\"keyid\":\"k\",\"sig\":\"s\"\x7d]\x7d", none⟩

/-- An attestation whose payload is cut short. -/
def attMalformed : Signature Nat Nat :=
  attOf ⟨ascii "\x7b\"payloadType\":", none⟩

/-- An attestation whose `Payload()` returns an error beside bytes that are a
well-formed attestation. -/
def attErrWithBytes : Signature Nat Nat :=
  attOf ⟨ascii "\x7b\"payloadType\":\"t\"\x7d", some ⟨"layer read failed"⟩⟩

/-- A single image with the given signatures and attestations and no
attachment. -/
def imageWith (sigs atts : List (Signature Nat Nat)) : SignedEntity Nat Nat :=
  { Signatures := .ok ⟨.ok sigs⟩
    Attestations := .ok ⟨.ok atts⟩
    Attachment := fun _ => .error ⟨"attachment not found"⟩
    IndexManifest := none }

/-- A registry that holds one entity, at `exRef`. -/
def registryWith (e : SignedEntity Nat Nat) : Registry Nat Nat :=
  ⟨fun r => if r = exRef then .ok e else .error ⟨"manifest unknown"⟩⟩

/-- A way to print a platform. -/
def exFormat (p : Platform) : String := p.OS ++ "/" ++ p.Architecture

/-- The platform `linux/amd64`. -/
def amd64 : Platform := ⟨"linux", "amd64", "", ""⟩

/-- The platform `linux/arm64`. -/
def arm64 : Platform := ⟨"linux", "arm64", "", ""⟩

/-- An image whose only attachment is an SBOM. -/
def imageWithSBOM (payload : Bytes) (mediaType : String) : SignedEntity Nat Nat :=
  { Signatures := .ok ⟨.ok []⟩
    Attestations := .ok ⟨.ok []⟩
    Attachment := fun name =>
      if name = "sbom" then .ok ⟨.ok payload, .ok mediaType⟩
      else .error ⟨"attachment not found"⟩
    IndexManifest := none }

/-- An index with the given manifest and nothing attached to it. -/
def indexWith (manifests : List Descriptor) : SignedEntity Nat Nat :=
  { Signatures := .ok ⟨.ok []⟩
    Attestations := .ok ⟨.ok []⟩
    Attachment := fun _ => .error ⟨"attachment not found"⟩
    IndexManifest := some (.ok ⟨manifests⟩) }

/-- A registry that holds an index at `exRef` and its two children, each with
an SBOM of its own media type. -/
def indexRegistry (manifests : List Descriptor) : Registry Nat Nat :=
  ⟨fun r =>
    if r = exRef then .ok (indexWith manifests)
    else if r = .digest "registry.example/app" "sha256:aaa" then
      .ok (imageWithSBOM (ascii "sbom-amd64") "text/spdx")
    else if r = .digest "registry.example/app" "sha256:bbb" then
      .ok (imageWithSBOM (ascii "sbom-arm64") "application/vnd.cyclonedx+json")
    else .error ⟨"manifest unknown"⟩⟩

/-- A bundle type with one value, written as `{}`. -/
def unitCodec : BundleJSON Unit :=
  ⟨(), fun _ => ascii "\x7b\x7d", fun _ b => (b, none)⟩

/-! ## Lemmas: slices and the pool -/

section PoolLemmas

theorem setSlot_eq {α : Type} (l : List α) (i : Nat) (f : α → α) (h : i < l.length) :
    setSlot l i f = l.set i (f (l.get ⟨i, h⟩)) := by
  simp [setSlot, List.getElem?_eq_getElem h]

theorem setSlot_length {α : Type} (l : List α) (i : Nat) (f : α → α) :
    (setSlot l i f).length = l.length := by
  unfold setSlot
  split <;> simp

theorem enum_closures_get {α σ : Type} (l : List α) (f : Nat → α → Closure σ) (i : Nat) :
    (l.enum.map (fun p => f p.1 p.2))[i]? = (l[i]?).map (f i) := by
  simp [List.getElem?_map, List.getElem?_enum, Option.map_map, Function.comp_def]

theorem firstError_some (e : GoError) (err : Option GoError) :
    firstError (some e) err = some e := rfl

theorem firstError_none (err : Option GoError) : firstError none err = err := rfl

theorem firstError_ne_none (result : Option GoError) (e : GoError) :
    firstError result (some e) ≠ none := by
  cases result <;> simp [firstError]

/-- Once the pool holds an error it keeps it. -/
theorem pool_keeps_error {σ : Type} (closures : List (Closure σ)) (e : GoError) :
    ∀ (schedule : List Nat) (st : σ × Option GoError), st.2 = some e →
      (schedule.foldl (poolStep closures) st).2 = some e := by
  intro schedule
  induction schedule with
  | nil => intro st h; simpa using h
  | cons i rest ih =>
    intro st h
    rw [List.foldl_cons]
    apply ih
    unfold poolStep
    split
    · exact h
    · simp [h, firstError]

/-- A property of the memory that every closure keeps holds at the end. -/
theorem pool_keeps_invariant {σ : Type} (closures : List (Closure σ)) (Inv : σ → Prop)
    (hInv : ∀ (i : Nat) (w : Closure σ) (mem : σ), closures[i]? = some w → Inv mem → Inv (w mem).1) :
    ∀ (schedule : List Nat) (st : σ × Option GoError), Inv st.1 →
      Inv (schedule.foldl (poolStep closures) st).1 := by
  intro schedule
  induction schedule with
  | nil => intro st h; simpa using h
  | cons i rest ih =>
    intro st h
    rw [List.foldl_cons]
    apply ih
    unfold poolStep
    split
    · exact h
    · next w hw => exact hInv i w st.1 hw h

/-- The error the pool ends with is the error it started with or one a closure
returned. -/
theorem pool_error_source {σ : Type} (closures : List (Closure σ)) (Q : GoError → Prop)
    (hQ : ∀ (i : Nat) (w : Closure σ) (mem : σ) (e : GoError),
      closures[i]? = some w → (w mem).2 = some e → Q e) :
    ∀ (schedule : List Nat) (st : σ × Option GoError), (∀ e, st.2 = some e → Q e) →
      ∀ e, (schedule.foldl (poolStep closures) st).2 = some e → Q e := by
  intro schedule
  induction schedule with
  | nil => intro st h e he; exact h e (by simpa using he)
  | cons i rest ih =>
    intro st h
    rw [List.foldl_cons]
    apply ih
    intro e he
    unfold poolStep at he
    split at he
    · exact h e he
    · next w hw =>
      cases hst : st.2 with
      | some e0 =>
        rw [hst] at he
        simp only [firstError] at he
        exact h e (by rw [hst]; exact he)
      | none =>
        rw [hst] at he
        exact hQ i w st.1 e hw he

/-- If a closure is scheduled that fails on every memory the other closures
can leave, the pool ends with an error. -/
theorem pool_fails {σ : Type} (closures : List (Closure σ)) (Inv : σ → Prop)
    (i0 : Nat) (w0 : Closure σ) (h0 : closures[i0]? = some w0)
    (hInv : ∀ (i : Nat) (w : Closure σ) (mem : σ), i ≠ i0 → closures[i]? = some w →
      Inv mem → Inv (w mem).1)
    (hfail : ∀ mem, Inv mem → (w0 mem).2 ≠ none) :
    ∀ (schedule : List Nat) (st : σ × Option GoError), Inv st.1 → i0 ∈ schedule →
      (schedule.foldl (poolStep closures) st).2 ≠ none := by
  intro schedule
  induction schedule with
  | nil => intro st _ hmem; simp at hmem
  | cons i rest ih =>
    intro st hst hmem
    rw [List.foldl_cons]
    by_cases hi : i0 = i
    · subst hi
      have hstep : (poolStep closures st i0).2 ≠ none := by
        unfold poolStep
        rw [h0]
        cases hw : (w0 st.1).2 with
        | none => exact absurd hw (hfail st.1 hst)
        | some e => simp only []; rw [hw]; exact firstError_ne_none _ _
      cases hs : (poolStep closures st i0).2 with
      | none => exact absurd hs hstep
      | some e => rw [pool_keeps_error closures e rest _ hs]; simp
    · have hmem2 : i0 ∈ rest := by
        rcases List.mem_cons.mp hmem with h | h
        · exact absurd h hi
        · exact h
      apply ih _ _ hmem2
      unfold poolStep
      split
      · exact hst
      · next w hw => exact hInv i w st.1 (fun h => hi h.symm) hw hst

/-- Closures that each store one value into their own slot, and do not fail,
fill the slice with these values, in whatever order all of them run. -/
theorem pool_fills_slots {α : Type} (closures : List (Closure (List α))) (target : List α)
    (hlen : closures.length = target.length)
    (hcl : ∀ (i : Nat) (w : Closure (List α)), closures[i]? = some w →
      ∀ mem : List α, mem.length = target.length →
      ∃ h : i < target.length, w mem = (mem.set i (target.get ⟨i, h⟩), none)) :
    ∀ (schedule : List Nat) (st : List α × Option GoError),
      st.1.length = target.length → st.2 = none →
      (schedule.foldl (poolStep closures) st).2 = none ∧
      (schedule.foldl (poolStep closures) st).1.length = target.length ∧
      ∀ j, j < target.length →
        (schedule.foldl (poolStep closures) st).1[j]? =
          if j ∈ schedule then target[j]? else st.1[j]? := by
  intro schedule
  induction schedule with
  | nil => intro st h1 h2; simp [h1, h2]
  | cons i rest ih =>
    intro st h1 h2
    rw [List.foldl_cons]
    cases hw : closures[i]? with
    | none =>
      have hst : poolStep closures st i = st := by simp [poolStep, hw]
      rw [hst]
      obtain ⟨a, b, c⟩ := ih st h1 h2
      refine ⟨a, b, fun j hj => ?_⟩
      have hij : j ≠ i := by
        intro h
        subst h
        have := List.getElem?_eq_none_iff.mp hw
        omega
      rw [c j hj]
      simp [List.mem_cons, hij]
    | some w =>
      obtain ⟨hi, hwm⟩ := hcl i w hw st.1 h1
      have hst : poolStep closures st i = (st.1.set i (target.get ⟨i, hi⟩), none) := by
        simp [poolStep, hw, hwm, h2, firstError]
      rw [hst]
      obtain ⟨a, b, c⟩ := ih (st.1.set i (target.get ⟨i, hi⟩), none) (by simp [h1]) rfl
      refine ⟨a, b, fun j hj => ?_⟩
      rw [c j hj]
      by_cases hij : j = i
      · subst hij
        have hj1 : j < st.1.length := by omega
        simp [List.getElem?_set_self, hj1, List.getElem?_eq_getElem hi]
      · have hne : i ≠ j := fun h => hij h.symm
        simp [List.mem_cons, hij, List.getElem?_set_ne hne]

/-- The slice the pool leaves when every closure has run. -/
theorem pool_result {α : Type} (closures : List (Closure (List α))) (target : List α)
    (hlen : closures.length = target.length)
    (hcl : ∀ (i : Nat) (w : Closure (List α)), closures[i]? = some w →
      ∀ mem : List α, mem.length = target.length →
      ∃ h : i < target.length, w mem = (mem.set i (target.get ⟨i, h⟩), none))
    (schedule : List Nat) (hs : schedule.Perm (List.range target.length))
    (mem : List α) (hmem : mem.length = target.length) :
    poolWait closures schedule mem = (target, none) := by
  obtain ⟨a, b, c⟩ := pool_fills_slots closures target hlen hcl schedule (mem, none) hmem rfl
  unfold poolWait
  refine Prod.ext ?_ a
  apply List.ext_getElem?
  intro j
  by_cases hj : j < target.length
  · rw [c j hj]
    have : j ∈ schedule := hs.mem_iff.mpr (List.mem_range.mpr hj)
    simp [this]
  · have h1 : target.length ≤ j := Nat.le_of_not_lt hj
    rw [List.getElem?_eq_none_iff.mpr (by omega), List.getElem?_eq_none_iff.mpr h1]

end PoolLemmas

/-! ## Lemmas: the closures of the two collection fetches -/

section ClosureLemmas

variable {Certificate RekorBundle : Type}

theorem sigClosure_ok (i : Nat) (sig : Signature Certificate RekorBundle)
    (mem : List (SignedPayload Certificate RekorBundle)) (h : i < mem.length)
    (h1 : sig.Payload.err = none) (h2 : sig.Base64Signature.err = none)
    (h3 : sig.Cert.err = none) (h4 : sig.Chain.err = none) (h5 : sig.Bundle.err = none) :
    sigClosure i sig mem =
      (mem.set i ⟨sig.Base64Signature.val, sig.Payload.val, sig.Cert.val, sig.Chain.val,
        sig.Bundle.val⟩, none) := by
  simp [sigClosure, h1, h2, h3, h4, h5, setSlot_eq, h]

theorem sigClosure_length (i : Nat) (sig : Signature Certificate RekorBundle)
    (mem : List (SignedPayload Certificate RekorBundle)) :
    (sigClosure i sig mem).1.length = mem.length := by
  unfold sigClosure
  repeat' split
  all_goals simp [setSlot_length]

theorem sigClosure_error (i : Nat) (sig : Signature Certificate RekorBundle)
    (mem : List (SignedPayload Certificate RekorBundle)) :
    (sigClosure i sig mem).2 =
      firstError sig.Payload.err (firstError sig.Base64Signature.err
        (firstError sig.Cert.err (firstError sig.Chain.err sig.Bundle.err))) := by
  unfold sigClosure
  repeat' split
  all_goals simp_all [firstError]

theorem attClosure_length (i : Nat) (att : Signature Certificate RekorBundle)
    (mem : List AttestationPayload) :
    (attClosure i att mem).1.length = mem.length := by
  unfold attClosure
  split <;> simp

end ClosureLemmas

/-! ## Lemmas: the collection fetches -/

section FetchLemmas

variable {Certificate RekorBundle : Type}

/-- Past the empty-collection test, `FetchSignaturesForReference` is the pool
run over the closures. -/
theorem fetchSignatures_run (reg : Registry Certificate RekorBundle) (schedule : List Nat)
    (ctx : Context) (ref : Reference) (simg : SignedEntity Certificate RekorBundle)
    (sigs : Collection Certificate RekorBundle) (l : List (Signature Certificate RekorBundle))
    (hent : reg.SignedEntity ref = .ok simg) (hsigs : simg.Signatures = .ok sigs)
    (hget : sigs.Get = .ok l) (hne : l ≠ []) :
    FetchSignaturesForReference reg schedule ctx ref =
      match poolWait (l.enum.map (fun p => sigClosure p.1 p.2)) schedule
          (List.replicate l.length SignedPayload.zero) with
      | (_, some err) => ⟨none, some err⟩
      | (signatures, none) => ⟨some signatures, none⟩ := by
  have hl : l.length ≠ 0 := fun h => hne (List.length_eq_zero.mp h)
  simp [FetchSignaturesForReference, hent, hsigs, hget, hl]

/-- Past the empty-collection test, `FetchAttestationsForReference` is the pool
run over the closures. -/
theorem fetchAttestations_run (reg : Registry Certificate RekorBundle) (schedule : List Nat)
    (ctx : Context) (ref : Reference) (simg : SignedEntity Certificate RekorBundle)
    (atts : Collection Certificate RekorBundle) (l : List (Signature Certificate RekorBundle))
    (hent : reg.SignedEntity ref = .ok simg) (hatts : simg.Attestations = .ok atts)
    (hget : atts.Get = .ok l) (hne : l ≠ []) :
    FetchAttestationsForReference reg schedule ctx ref =
      match poolWait (l.enum.map (fun p => attClosure p.1 p.2)) schedule
          (List.replicate l.length AttestationPayload.zero) with
      | (_, some err) => ⟨none, some err⟩
      | (attestations, none) => ⟨some attestations, none⟩ := by
  have hl : l.length ≠ 0 := fun h => hne (List.length_eq_zero.mp h)
  simp [FetchAttestationsForReference, hent, hatts, hget, hl]

/-- When every getter of every member succeeds, the pool leaves the records of
the members in the order of the collection. -/
theorem sigPool_all_ok (l : List (Signature Certificate RekorBundle))
    (hok : ∀ s ∈ l, s.Payload.err = none ∧ s.Base64Signature.err = none ∧
      s.Cert.err = none ∧ s.Chain.err = none ∧ s.Bundle.err = none)
    (schedule : List Nat) (hs : schedule.Perm (List.range l.length)) :
    poolWait (l.enum.map (fun p => sigClosure p.1 p.2)) schedule
        (List.replicate l.length SignedPayload.zero) =
      (l.map (fun s => (⟨s.Base64Signature.val, s.Payload.val, s.Cert.val, s.Chain.val,
        s.Bundle.val⟩ : SignedPayload Certificate RekorBundle)), none) := by
  apply pool_result
  · simp
  · intro i w hw mem hmem
    rw [enum_closures_get] at hw
    cases hl : l[i]? with
    | none => simp [hl] at hw
    | some s =>
      simp only [hl, Option.map_some', Option.some.injEq] at hw
      subst hw
      obtain ⟨hi, hs⟩ := List.getElem?_eq_some_iff.mp hl
      have hmem_s : s ∈ l := hs ▸ List.getElem_mem hi
      obtain ⟨h1, h2, h3, h4, h5⟩ := hok s hmem_s
      refine ⟨by simpa using hi, ?_⟩
      rw [sigClosure_ok i s mem (by simp at hmem; omega) h1 h2 h3 h4 h5]
      simp [hs]
  · simpa using hs
  · simp

end FetchLemmas

section MoreFetchLemmas

variable {Certificate RekorBundle : Type}

theorem firstError_eq_some (a b : Option GoError) (e : GoError)
    (h : firstError a b = some e) : a = some e ∨ b = some e := by
  cases a with
  | none => exact Or.inr h
  | some x => exact Or.inl h

theorem firstError_eq_none (a b : Option GoError) (h : firstError a b = none) :
    a = none ∧ b = none := by
  cases a with
  | none => exact ⟨rfl, h⟩
  | some x => simp [firstError] at h

/-- The slice the signature pool leaves has one slot per member. -/
theorem sigPool_length (l : List (Signature Certificate RekorBundle)) (schedule : List Nat) :
    (poolWait (l.enum.map (fun p => sigClosure p.1 p.2)) schedule
        (List.replicate l.length SignedPayload.zero)).1.length = l.length := by
  unfold poolWait
  refine pool_keeps_invariant (l.enum.map (fun p => sigClosure p.1 p.2))
    (fun mem => mem.length = l.length) ?_ schedule
    (List.replicate l.length SignedPayload.zero, none) (by simp)
  intro i w mem hw hmem
  rw [enum_closures_get] at hw
  cases hl : l[i]? with
  | none => simp [hl] at hw
  | some s =>
    simp only [hl, Option.map_some', Option.some.injEq] at hw
    subst hw
    rw [sigClosure_length]
    exact hmem

/-- The slice the attestation pool leaves has one slot per member. -/
theorem attPool_length (l : List (Signature Certificate RekorBundle)) (schedule : List Nat) :
    (poolWait (l.enum.map (fun p => attClosure p.1 p.2)) schedule
        (List.replicate l.length AttestationPayload.zero)).1.length = l.length := by
  unfold poolWait
  refine pool_keeps_invariant (l.enum.map (fun p => attClosure p.1 p.2))
    (fun mem => mem.length = l.length) ?_ schedule
    (List.replicate l.length AttestationPayload.zero, none) (by simp)
  intro i w mem hw hmem
  rw [enum_closures_get] at hw
  cases hl : l[i]? with
  | none => simp [hl] at hw
  | some s =>
    simp only [hl, Option.map_some', Option.some.injEq] at hw
    subst hw
    rw [attClosure_length]
    exact hmem

/-- A signature closure fails exactly with the error of the first getter of its
member that fails. -/
theorem sigClosure_error_source (i : Nat) (sig : Signature Certificate RekorBundle)
    (mem : List (SignedPayload Certificate RekorBundle)) (e : GoError)
    (h : (sigClosure i sig mem).2 = some e) :
    sig.Payload.err = some e ∨ sig.Base64Signature.err = some e ∨ sig.Cert.err = some e ∨
      sig.Chain.err = some e ∨ sig.Bundle.err = some e := by
  rw [sigClosure_error] at h
  rcases firstError_eq_some _ _ _ h with h | h
  · exact Or.inl h
  rcases firstError_eq_some _ _ _ h with h | h
  · exact Or.inr (Or.inl h)
  rcases firstError_eq_some _ _ _ h with h | h
  · exact Or.inr (Or.inr (Or.inl h))
  rcases firstError_eq_some _ _ _ h with h | h
  · exact Or.inr (Or.inr (Or.inr (Or.inl h)))
  · exact Or.inr (Or.inr (Or.inr (Or.inr h)))

theorem sigClosure_fails (i : Nat) (sig : Signature Certificate RekorBundle)
    (mem : List (SignedPayload Certificate RekorBundle))
    (h : sig.Payload.err ≠ none ∨ sig.Base64Signature.err ≠ none ∨ sig.Cert.err ≠ none ∨
      sig.Chain.err ≠ none ∨ sig.Bundle.err ≠ none) :
    (sigClosure i sig mem).2 ≠ none := by
  rw [sigClosure_error]
  intro hn
  obtain ⟨h1, hn⟩ := firstError_eq_none _ _ hn
  obtain ⟨h2, hn⟩ := firstError_eq_none _ _ hn
  obtain ⟨h3, hn⟩ := firstError_eq_none _ _ hn
  obtain ⟨h4, h5⟩ := firstError_eq_none _ _ hn
  rcases h with h | h | h | h | h
  · exact h h1
  · exact h h2
  · exact h h3
  · exact h h4
  · exact h h5

/-- If a getter of some member fails, the signature pool ends with an error,
and that error is one a getter of a member returned. -/
theorem sigPool_fails (l : List (Signature Certificate RekorBundle)) (schedule : List Nat)
    (hs : schedule.Perm (List.range l.length))
    (hfail : ∃ s ∈ l, s.Payload.err ≠ none ∨ s.Base64Signature.err ≠ none ∨
      s.Cert.err ≠ none ∨ s.Chain.err ≠ none ∨ s.Bundle.err ≠ none) :
    ∃ e, (poolWait (l.enum.map (fun p => sigClosure p.1 p.2)) schedule
        (List.replicate l.length SignedPayload.zero)).2 = some e ∧
      ∃ s ∈ l, s.Payload.err = some e ∨ s.Base64Signature.err = some e ∨
        s.Cert.err = some e ∨ s.Chain.err = some e ∨ s.Bundle.err = some e := by
  obtain ⟨s, hsl, hbad⟩ := hfail
  obtain ⟨i0, hi0, hget⟩ := List.getElem_of_mem hsl
  have hne : (poolWait (l.enum.map (fun p => sigClosure p.1 p.2)) schedule
      (List.replicate l.length SignedPayload.zero)).2 ≠ none := by
    unfold poolWait
    apply pool_fails _ (fun _ => True) i0 (sigClosure i0 s)
    · rw [enum_closures_get, List.getElem?_eq_getElem hi0, hget]; rfl
    · intros; trivial
    · intro mem _
      exact sigClosure_fails i0 s mem hbad
    · trivial
    · exact hs.mem_iff.mpr (List.mem_range.mpr hi0)
  cases he : (poolWait (l.enum.map (fun p => sigClosure p.1 p.2)) schedule
      (List.replicate l.length SignedPayload.zero)).2 with
  | none => exact absurd he hne
  | some e =>
    refine ⟨e, rfl, ?_⟩
    unfold poolWait at he
    refine pool_error_source _ (fun e => ∃ s ∈ l, s.Payload.err = some e ∨
      s.Base64Signature.err = some e ∨ s.Cert.err = some e ∨ s.Chain.err = some e ∨
      s.Bundle.err = some e) ?_ schedule _ ?_ e he
    · intro i w mem e hw hwe
      rw [enum_closures_get] at hw
      cases hl : l[i]? with
      | none => simp [hl] at hw
      | some s' =>
        simp only [hl, Option.map_some', Option.some.injEq] at hw
        subst hw
        obtain ⟨hi, hs'⟩ := List.getElem?_eq_some_iff.mp hl
        exact ⟨s', hs' ▸ List.getElem_mem hi, sigClosure_error_source i s' mem e hwe⟩
    · intro e h; simp at h

/-- If the bytes of some member do not unmarshal into a fresh
`AttestationPayload`, the attestation pool ends with an error. -/
theorem attPool_fails (l : List (Signature Certificate RekorBundle)) (schedule : List Nat)
    (hs : schedule.Perm (List.range l.length))
    (hfail : ∃ a ∈ l, (UnmarshalAttestation a.Payload.val AttestationPayload.zero).2 ≠ none) :
    (poolWait (l.enum.map (fun p => attClosure p.1 p.2)) schedule
        (List.replicate l.length AttestationPayload.zero)).2 ≠ none := by
  obtain ⟨a, hal, hbad⟩ := hfail
  obtain ⟨i0, hi0, hget⟩ := List.getElem_of_mem hal
  unfold poolWait
  apply pool_fails _ (fun mem => mem[i0]? = some AttestationPayload.zero) i0 (attClosure i0 a)
  · rw [enum_closures_get, List.getElem?_eq_getElem hi0, hget]; rfl
  · intro i w mem hi hw hmem
    rw [enum_closures_get] at hw
    cases hl : l[i]? with
    | none => simp [hl] at hw
    | some a' =>
      simp only [hl, Option.map_some', Option.some.injEq] at hw
      subst hw
      unfold attClosure
      split
      · exact hmem
      · simp only []
        rw [List.getElem?_set_ne hi]
        exact hmem
  · intro mem hmem
    unfold attClosure
    rw [hmem]
    exact hbad
  · simp [List.getElem?_replicate, hi0]
  · exact hs.mem_iff.mpr (List.mem_range.mpr hi0)

end MoreFetchLemmas

section ScanLemmas

variable {Certificate RekorBundle : Type}

/-- `Platform.Equals` holds exactly when all four fields agree. -/
theorem Platform.Equals_iff (p o : Platform) :
    p.Equals o = true ↔
      p.OS = o.OS ∧ p.Architecture = o.Architecture ∧ p.Variant = o.Variant ∧
        p.OSVersion = o.OSVersion := by
  simp [Platform.Equals, and_assoc]

theorem Platform.Equals_iff_eq (p o : Platform) : p.Equals o = true ↔ p = o := by
  rw [Platform.Equals_iff]
  constructor
  · intro h
    cases p
    cases o
    simp_all
  · intro h
    subst h
    exact ⟨rfl, rfl, rfl, rfl⟩

/-- The scan stops at the first descriptor whose platform is the requested one
and fetches the attachment of the child at its digest. -/
theorem scanManifests_found (format : Platform → String)
    (reg : Registry Certificate RekorBundle) (ctx : Context) (ref : Reference)
    (platform : Platform) (attachment : String) (d : Descriptor) :
    ∀ ms : List Descriptor, (∀ x ∈ ms, x.Platform ≠ none) →
      ms.find? (fun x => decide (x.Platform = some platform)) = some d →
      scanManifests format reg ref platform attachment ms =
        (.returned (FetchAttachmentForReference reg ctx (Digest ref.Context d.Digest)
            attachment).1,
          (FetchAttachmentForReference reg ctx (Digest ref.Context d.Digest) attachment).2) := by
  intro ms
  induction ms with
  | nil => intro _ h; simp at h
  | cons x rest ih =>
    intro hall hfind
    have hx : x.Platform ≠ none := hall x (List.mem_cons_self _ _)
    cases hp : x.Platform with
    | none => exact absurd hp hx
    | some q =>
      by_cases hq : q = platform
      · subst hq
        have hd : x = d := by
          simpa [List.find?_cons, hp] using hfind
        subst hd
        have he : q.Equals q = true := (Platform.Equals_iff_eq q q).mpr rfl
        unfold scanManifests
        simp only [hp, he, Bool.not_true, Bool.false_eq_true, if_false]
        unfold FetchAttachmentForReference
        cases reg.SignedEntity (Digest ref.Context x.Digest) with
        | error e => rfl
        | ok simg =>
          simp only []
          cases simg.Attachment attachment with
          | error e => rfl
          | ok file => rfl
      · have he : q.Equals platform = false := by
          cases h : q.Equals platform with
          | false => rfl
          | true => exact absurd ((Platform.Equals_iff_eq q platform).mp h) hq
        have hfind2 : rest.find? (fun x => decide (x.Platform = some platform)) = some d := by
          simpa [List.find?_cons, hp, hq] using hfind
        unfold scanManifests
        simp only [hp, he, Bool.not_false, if_true]
        exact ih (fun y hy => hall y (List.mem_cons_of_mem _ hy)) hfind2

/-- The scan of a manifest without the requested platform ends in the error
that names the platform and the reference, without a call. -/
theorem scanManifests_none (format : Platform → String)
    (reg : Registry Certificate RekorBundle) (ref : Reference)
    (platform : Platform) (attachment : String) :
    ∀ ms : List Descriptor, (∀ x ∈ ms, x.Platform ≠ none) →
      (∀ x ∈ ms, x.Platform ≠ some platform) →
      scanManifests format reg ref platform attachment ms =
        (.returned ⟨none, some ⟨"no child with platform " ++ format platform ++ " in index "
          ++ ref.String⟩⟩, []) := by
  intro ms
  induction ms with
  | nil => intro _ _; rfl
  | cons x rest ih =>
    intro hall hno
    have hx : x.Platform ≠ none := hall x (List.mem_cons_self _ _)
    cases hp : x.Platform with
    | none => exact absurd hp hx
    | some q =>
      have hq : q ≠ platform := fun h => hno x (List.mem_cons_self _ _) (by rw [hp, h])
      have he : q.Equals platform = false := by
        cases h : q.Equals platform with
        | false => rfl
        | true => exact absurd ((Platform.Equals_iff_eq q platform).mp h) hq
      unfold scanManifests
      simp only [hp, he, Bool.not_false, if_true]
      exact ih (fun y hy => hall y (List.mem_cons_of_mem _ hy))
        (fun y hy => hno y (List.mem_cons_of_mem _ hy))

end ScanLemmas

/-! ## Lemmas: reading back a written string -/

section StringLemmas

theorem u8_lt (a b : UInt8) : a < b ↔ a.toNat < b.toNat := Iff.rfl

theorem u8_le (a b : UInt8) : a ≤ b ↔ a.toNat ≤ b.toNat := Iff.rfl

theorem u8_ofNat_toNat (b : UInt8) : UInt8.ofNat b.toNat = b := by
  cases b with
  | mk v =>
    apply UInt8.ext
    simp [UInt8.ofNat, UInt8.toNat]

theorem hex4_of_byte : ∀ n, n < 128 →
    hex4 0x30 0x30 (hexDigit (n / 16)) (hexDigit (n % 16)) = some n := by
  decide

theorem surrogatePair_none (u : Nat) (next : Option Nat) (h : u < 0xD800) :
    surrogatePair u next = none := by
  unfold surrogatePair
  cases next with
  | none => rfl
  | some lo =>
    have : ¬ (0xD800 ≤ u ∧ u < 0xDC00 ∧ 0xDC00 ≤ lo ∧ lo < 0xE000) := by omega
    simp [this]

theorem surrogatePair_none_high (u : Nat) (next : Option Nat) (h : 0xDC00 ≤ u) :
    surrogatePair u next = none := by
  unfold surrogatePair
  cases next with
  | none => rfl
  | some lo =>
    have : ¬ (0xD800 ≤ u ∧ u < 0xDC00 ∧ 0xDC00 ≤ lo ∧ lo < 0xE000) := by omega
    simp [this]

/-- Reading a `\u` escape whose code unit is not half of a surrogate pair. -/
theorem parseString_u4 (h1 h2 h3 h4 : UInt8) (u : Nat) (X : Bytes)
    (hu : hex4 h1 h2 h3 h4 = some u) (hs : u < 0xD800 ∨ 0xDC00 ≤ u) :
    parseString .read (0x5C :: 0x75 :: h1 :: h2 :: h3 :: h4 :: X) =
      prepend (encodeRune u) (parseString .read X) := by
  have hsp : surrogatePair u (peekU4 X) = none := by
    rcases hs with h | h
    · exact surrogatePair_none u _ h
    · exact surrogatePair_none_high u _ h
  rw [parseString]
  simp [hu, hsp]


theorem encodeRune_ascii (b : UInt8) (hb : b < 0x80) : encodeRune b.toNat = [b] := by
  have h : b.toNat < 0x80 := hb
  simp [encodeRune, h, u8_ofNat_toNat]

theorem runeLen_ascii (b : UInt8) (hb : b < 0x80) (X : Bytes) : runeLen (b :: X) = some 1 := by
  simp [runeLen, hb]

theorem parseString_quote (X : Bytes) : parseString .read (0x22 :: X) = some ([], X) := by
  rw [parseString.eq_def]
  simp

theorem parseString_simple (c x : UInt8) (X : Bytes) (hx : simpleEscape c = some x)
    (hc : c ≠ 0x75) :
    parseString .read (0x5C :: c :: X) = prepend [x] (parseString .read X) := by
  rw [parseString.eq_def]
  simp [hx, hc]

theorem parseString_plain (b : UInt8) (X : Bytes) (h1 : b ≠ 0x22) (h2 : ¬ b < 0x20)
    (h3 : b ≠ 0x5C) :
    parseString .read (b :: X) =
      match runeLen (b :: X) with
      | some n => prepend [b] (parseString (Mode.next .copy (n - 1)) X)
      | none => prepend replacement (parseString .read X) := by
  rw [parseString.eq_def]
  simp [h1, h2, h3]

/-- Reading back what `json.Marshal` writes for an ASCII byte gives the byte. -/
theorem parseString_quoteASCII (b : UInt8) (hb : b < 0x80) (X : Bytes) :
    parseString .read (quoteASCII b ++ X) = prepend [b] (parseString .read X) := by
  unfold quoteASCII
  split_ifs with h1 h2 h3 h4 h5
  · rcases h1 with h | h <;> subst h <;>
      exact parseString_simple _ _ X (by decide) (by decide)
  · subst h2
    exact parseString_simple _ _ X (by decide) (by decide)
  · subst h3
    exact parseString_simple _ _ X (by decide) (by decide)
  · subst h4
    exact parseString_simple _ _ X (by decide) (by decide)
  · have hn : b.toNat < 128 := hb
    have := parseString_u4 0x30 0x30 (hexDigit (b.toNat / 16)) (hexDigit (b.toNat % 16))
      b.toNat X (hex4_of_byte b.toNat hn) (Or.inl (by omega))
    rw [encodeRune_ascii b hb] at this
    simpa using this
  · have hq : b ≠ 0x22 := fun h => h1 (Or.inl h)
    have hbs : b ≠ 0x5C := fun h => h1 (Or.inr h)
    have hc : ¬ b < 0x20 := fun h => h5 (Or.inl h)
    rw [List.cons_append, List.nil_append, parseString_plain b X hq hc hbs,
      runeLen_ascii b hb]
    rfl


theorem not_ascii_plain (b : UInt8) (hb : ¬ b < 0x80) :
    b ≠ 0x22 ∧ ¬ b < 0x20 ∧ b ≠ 0x5C := by
  have h : ¬ b.toNat < 128 := hb
  refine ⟨?_, ?_, ?_⟩
  · intro e; subst e; exact h (by decide)
  · intro e
    have : b.toNat < 32 := e
    omega
  · intro e; subst e; exact h (by decide)

/-- `runeLen` reads only the bytes of the sequence it accepts. -/
theorem runeLen_prefix (b : UInt8) (t : Bytes) (n : Nat) (Z : Bytes)
    (h : runeLen (b :: t) = some n) :
    runeLen (b :: (t.take (n - 1) ++ Z)) = some n ∧ 1 ≤ n ∧ n - 1 ≤ t.length ∧
      (¬ b < 0x80 → 2 ≤ n) := by
  by_cases h1 : b < 0x80
  · simp only [runeLen, h1, if_true, Option.some.injEq] at h
    subst h
    simp [runeLen, h1]
  by_cases h2 : b < 0xC2
  · simp [runeLen, h1, h2] at h
  by_cases h3 : b < 0xE0
  · rcases t with _ | ⟨b1, t1⟩
    · simp [runeLen, h1, h2, h3] at h
    · simp only [runeLen, h1, h2, h3, if_true, if_false] at h
      by_cases hc : isCont b1 = true
      · simp only [hc, if_true, Option.some.injEq] at h
        subst h
        simp [runeLen, h1, h2, h3, hc]
      · simp [hc] at h
  by_cases h4 : b < 0xF0
  · rcases t with _ | ⟨b1, _ | ⟨b2, t2⟩⟩
    · simp [runeLen, h1, h2, h3, h4] at h
    · simp [runeLen, h1, h2, h3, h4] at h
    · simp only [runeLen, h1, h2, h3, h4, if_true, if_false] at h
      by_cases hc : (secondOK b b1 && isCont b2) = true
      · simp only [hc, if_true, Option.some.injEq] at h
        subst h
        simp only [runeLen, h1, h2, h3, h4, if_true, if_false, Nat.add_one_sub_one,
          List.take_succ_cons, List.take_zero, List.cons_append, List.nil_append, hc]
        simp
      · simp [hc] at h
  by_cases h5 : b < 0xF5
  · rcases t with _ | ⟨b1, _ | ⟨b2, _ | ⟨b3, t3⟩⟩⟩
    · simp [runeLen, h1, h2, h3, h4, h5] at h
    · simp [runeLen, h1, h2, h3, h4, h5] at h
    · simp [runeLen, h1, h2, h3, h4, h5] at h
    · simp only [runeLen, h1, h2, h3, h4, h5, if_true, if_false] at h
      by_cases hc : (secondOK b b1 && isCont b2 && isCont b3) = true
      · simp only [hc, if_true, Option.some.injEq] at h
        subst h
        simp only [runeLen, h1, h2, h3, h4, h5, if_true, if_false, Nat.add_one_sub_one,
          List.take_succ_cons, List.take_zero, List.cons_append, List.nil_append, hc]
        simp
      · simp [hc] at h
  · simp [runeLen, h1, h2, h3, h4, h5] at h

theorem quoteBody_copy : ∀ (t : Bytes) (k : Nat), k < t.length →
    quoteBody (.copy k) t = t.take (k + 1) ++ quoteBody .read (t.drop (k + 1)) := by
  intro t
  induction t with
  | nil => intro k h; simp at h
  | cons b t ih =>
    intro k h
    rw [quoteBody.eq_2]
    cases k with
    | zero => simp [Mode.next]
    | succ j =>
      have hj : j < t.length := by simpa using h
      simp [Mode.next, ih j hj]

theorem prepend_some (bs s rest : Bytes) : prepend bs (some (s, rest)) = some (bs ++ s, rest) :=
  rfl


theorem isPrefix3 (x y z b : UInt8) (t : Bytes) (h : [x, y, z].isPrefixOf (b :: t) = true) :
    ∃ t', b = x ∧ t = y :: z :: t' := by
  rcases t with _ | ⟨b1, _ | ⟨b2, t2⟩⟩
  · simp [List.isPrefixOf] at h
  · simp [List.isPrefixOf] at h
  · simp [List.isPrefixOf] at h
    obtain ⟨h1, h2, h3⟩ := h
    exact ⟨t2, h1.symm, by rw [h2, h3]⟩

/-- Reading back the body `json.Marshal` writes for a Go string gives the string
coerced to valid UTF-8, in each mode of the writer. -/
theorem parseString_quoteBody : ∀ (s rest : Bytes),
    parseString .read (quoteBody .read s ++ 0x22 :: rest) = some (toValidUTF8 0 s, rest) ∧
    (∀ k, k < s.length →
      parseString (.copy k) (quoteBody (.copy k) s ++ 0x22 :: rest) =
        some (toValidUTF8 (k + 1) s, rest)) ∧
    (∀ k, k < s.length →
      parseString .read (quoteBody (.skip k) s ++ 0x22 :: rest) =
        some (toValidUTF8 0 (s.drop (k + 1)), rest)) := by
  intro s
  induction s with
  | nil =>
    intro rest
    refine ⟨?_, ?_, ?_⟩
    · simp [quoteBody, parseString_quote, toValidUTF8]
    · intro k h; simp at h
    · intro k h; simp at h
  | cons b t ih =>
    intro rest
    obtain ⟨iha, ihb, ihc⟩ := ih rest
    refine ⟨?_, ?_, ?_⟩
    · rw [quoteBody.eq_4]
      by_cases hb : b < 0x80
      · simp only [hb, if_true, List.append_assoc]
        rw [parseString_quoteASCII b hb, iha, prepend_some]
        simp [toValidUTF8, runeLen_ascii b hb]
      · simp only [hb, if_false]
        cases hr : runeLen (b :: t) with
        | none =>
          simp only []
          have := parseString_u4 0x66 0x66 0x66 0x64 0xFFFD (quoteBody .read t ++ 0x22 :: rest)
            (by decide) (Or.inr (by decide))
          have he : encodeRune 0xFFFD = replacement := by decide
          rw [he] at this
          have ha : ascii "\\ufffd" ++ quoteBody .read t ++ 0x22 :: rest =
              0x5C :: 0x75 :: 0x66 :: 0x66 :: 0x66 :: 0x64 ::
                (quoteBody .read t ++ 0x22 :: rest) := by
            rfl
          rw [ha, this, iha, prepend_some]
          simp [toValidUTF8, hr]
        | some n =>
          simp only []
          obtain ⟨hpre, hn1, hn2, hn3⟩ := runeLen_prefix b t n (quoteBody .read (t.drop (n - 1))
            ++ 0x22 :: rest) hr
          have hn : 2 ≤ n := hn3 hb
          split_ifs with hp1 hp2
          · obtain ⟨t', hb', ht'⟩ := isPrefix3 _ _ _ b t hp1
            subst hb' ht'
            have := parseString_u4 0x32 0x30 0x32 0x38 0x2028
              (quoteBody (.skip 1) (0x80 :: 0xA8 :: t') ++ 0x22 :: rest)
              (by decide) (Or.inl (by decide))
            have he : encodeRune 0x2028 = [0xE2, 0x80, 0xA8] := by decide
            rw [he] at this
            have ha : ascii "\\u2028" ++ quoteBody (.skip 1) (0x80 :: 0xA8 :: t') ++ 0x22 :: rest =
                0x5C :: 0x75 :: 0x32 :: 0x30 :: 0x32 :: 0x38 ::
                  (quoteBody (.skip 1) (0x80 :: 0xA8 :: t') ++ 0x22 :: rest) := by
              rfl
            rw [ha, this, ihc 1 (by simp), prepend_some]
            have hr3 : n = 3 := by
              simp [runeLen, secondOK, isCont] at hr
              omega
            subst hr3
            simp [toValidUTF8, hr]
          · obtain ⟨t', hb', ht'⟩ := isPrefix3 _ _ _ b t hp2
            subst hb' ht'
            have := parseString_u4 0x32 0x30 0x32 0x39 0x2029
              (quoteBody (.skip 1) (0x80 :: 0xA9 :: t') ++ 0x22 :: rest)
              (by decide) (Or.inl (by decide))
            have he : encodeRune 0x2029 = [0xE2, 0x80, 0xA9] := by decide
            rw [he] at this
            have ha : ascii "\\u2029" ++ quoteBody (.skip 1) (0x80 :: 0xA9 :: t') ++ 0x22 :: rest =
                0x5C :: 0x75 :: 0x32 :: 0x30 :: 0x32 :: 0x39 ::
                  (quoteBody (.skip 1) (0x80 :: 0xA9 :: t') ++ 0x22 :: rest) := by
              rfl
            rw [ha, this, ihc 1 (by simp), prepend_some]
            have hr3 : n = 3 := by
              simp [runeLen, secondOK, isCont] at hr
              omega
            subst hr3
            simp [toValidUTF8, hr]
          · obtain ⟨m, rfl⟩ : ∃ m, n = m + 2 := ⟨n - 2, by omega⟩
            obtain ⟨hq1, hq2, hq3⟩ := not_ascii_plain b hb
            have hm : m < t.length := by simp at hn2; omega
            have hmode : Mode.next Mode.copy (m + 2 - 1) = Mode.copy m := rfl
            rw [hmode, List.cons_append, parseString_plain b _ hq1 hq2 hq3]
            have hq : quoteBody (Mode.copy m) t ++ 0x22 :: rest =
                t.take (m + 2 - 1) ++ (quoteBody .read (t.drop (m + 2 - 1)) ++ 0x22 :: rest) := by
              rw [quoteBody_copy t m hm]
              simp
            rw [hq, hpre]
            simp only [hmode]
            rw [← hq, ihb m hm, prepend_some]
            simp [toValidUTF8, hr]
    · intro k hk
      rw [quoteBody.eq_2, List.cons_append, parseString.eq_2]
      cases k with
      | zero =>
        simp only [Mode.next]
        rw [iha, prepend_some]
        simp [toValidUTF8]
      | succ j =>
        simp only [Mode.next]
        rw [ihb j (by simpa using hk), prepend_some]
        simp [toValidUTF8]
    · intro k hk
      rw [quoteBody.eq_3]
      cases k with
      | zero =>
        simp only [Mode.next]
        rw [iha]
        simp
      | succ j =>
        simp only [Mode.next]
        rw [ihc j (by simpa using hk)]
        simp

end StringLemmas


/-! ## Lemmas: reading back a written `LocalSignedPayload` -/

section MarshalLemmas

variable {RekorBundle : Type}

theorem toValidUTF8_of_valid : ∀ (s : Bytes) (k : Nat), validUTF8 k s = true →
    toValidUTF8 k s = s := by
  intro s
  induction s with
  | nil => intro k _; cases k <;> rfl
  | cons b t ih =>
    intro k h
    cases k with
    | succ j =>
      simp only [validUTF8] at h
      simp [toValidUTF8, ih j h]
    | zero =>
      simp only [validUTF8] at h
      cases hr : runeLen (b :: t) with
      | none => simp [hr] at h
      | some n =>
        simp only [hr] at h
        simp [toValidUTF8, hr, ih (n - 1) h]

theorem skipSpace_cons (d : UInt8) (rest : Bytes) (hd : isSpace d = false) :
    skipSpace (d :: rest) = d :: rest := by
  simp [skipSpace, hd]

/-- A written string reads back as the string coerced to valid UTF-8. -/
theorem parseValue_quoteString (f : Nat) (s rest : Bytes) :
    parseValue (f + 1) (quoteString s ++ rest) = some (.string (toValidUTF8 0 s), rest) := by
  have h := (parseString_quoteBody s rest).1
  simp only [quoteString, List.cons_append, List.append_assoc, List.nil_append, parseValue]
  rw [skipSpace_cons 0x22 _ (by decide)]
  simp [h]

/-- One member of an object: a key that needs no escape, a colon, a value, and
the comma or closing brace behind it. -/
theorem parseMembers_member (f : Nat) (key valtext : Bytes) (j : JVal) (d : UInt8)
    (rest : Bytes) (hq : quoteBody .read key = key) (hk : toValidUTF8 0 key = key)
    (hval : parseValue f (valtext ++ d :: rest) = some (j, d :: rest))
    (hd : isSpace d = false) :
    parseMembers (f + 1) (0x22 :: key ++ 0x22 :: 0x3A :: (valtext ++ d :: rest)) =
      if d = 0x2C then (parseMembers f rest).map (fun r => ((key, j) :: r.1, r.2))
      else if d = 0x7D then some ([(key, j)], rest)
      else none := by
  have h := (parseString_quoteBody key (0x3A :: (valtext ++ d :: rest))).1
  rw [hq, hk] at h
  simp only [parseMembers, List.cons_append]
  rw [skipSpace_cons 0x22 _ (by decide)]
  simp only [if_true, h]
  rw [skipSpace_cons 0x3A _ (by decide)]
  simp only [if_true, hval]
  rw [skipSpace_cons d _ hd]


theorem key_base64Signature :
    quoteBody .read (ascii "base64Signature") = ascii "base64Signature" ∧
      toValidUTF8 0 (ascii "base64Signature") = ascii "base64Signature" := by
  decide

theorem key_cert :
    quoteBody .read (ascii "cert") = ascii "cert" ∧ toValidUTF8 0 (ascii "cert") = ascii "cert" := by
  decide

theorem key_rekorBundle :
    quoteBody .read (ascii "rekorBundle") = ascii "rekorBundle" ∧
      toValidUTF8 0 (ascii "rekorBundle") = ascii "rekorBundle" := by
  decide

/-- Written members read back as their keys with the values their texts read
as, given fuel for each value and one unit more per member. -/
theorem parseMembers_writeMembers : ∀ (ms : List (Bytes × Bytes × JVal)) (f g : Nat)
    (rest : Bytes), ms ≠ [] → f + ms.length ≤ g →
    (∀ m ∈ ms, quoteBody .read m.1 = m.1 ∧ toValidUTF8 0 m.1 = m.1 ∧
      ∀ (h : Nat) (rest' : Bytes), f ≤ h → parseValue h (m.2.1 ++ rest') = some (m.2.2, rest')) →
    parseMembers g (writeMembers (ms.map (fun m => (m.1, m.2.1))) ++ 0x7D :: rest) =
      some (ms.map (fun m => (m.1, m.2.2)), rest) := by
  intro ms
  induction ms with
  | nil => intro f g rest h; exact absurd rfl h
  | cons m tail ih =>
    intro f g rest _ hg hall
    obtain ⟨hq, hk, hval⟩ := hall m (List.mem_cons_self _ _)
    obtain ⟨g', rfl⟩ : ∃ g', g = g' + 1 := ⟨g - 1, by simp at hg; omega⟩
    have hg' : f + tail.length ≤ g' := by simp at hg; omega
    cases tail with
    | nil =>
      have := parseMembers_member g' m.1 m.2.1 m.2.2 0x7D rest hq hk
        (hval g' _ (by omega)) (by decide)
      simpa [writeMembers, quoteString, hq] using this
    | cons m' tail' =>
      have hrec := ih f g' rest (by simp) hg'
        (fun x hx => hall x (List.mem_cons_of_mem _ hx))
      have := parseMembers_member g' m.1 m.2.1 m.2.2 0x2C
        (writeMembers ((m' :: tail').map (fun m => (m.1, m.2.1))) ++ 0x7D :: rest) hq hk
        (hval g' _ (by omega)) (by decide)
      simp only [List.map_cons, writeMembers, quoteString, hq, List.cons_append,
        List.append_assoc, List.nil_append] at this hrec ⊢
      rw [this]
      simp [hrec]

theorem writeMembers_length_le (ms : List (Bytes × Bytes)) :
    ∀ m ∈ ms, m.2.length ≤ (writeMembers ms).length := by
  induction ms with
  | nil => intro m h; simp at h
  | cons x tail ih =>
    intro m hm
    cases tail with
    | nil =>
      simp at hm
      subst hm
      simp [writeMembers]
      omega
    | cons y tail' =>
      rcases List.mem_cons.mp hm with h | h
      · subst h
        simp [writeMembers]
        omega
      · have := ih m h
        simp [writeMembers] at this ⊢
        omega


/-- The written payload reads back as the object of its members, given what the
text of each member reads as. -/
theorem parseJSON_MarshalLocal (codec : BundleJSON RekorBundle)
    (v : LocalSignedPayload RekorBundle) (ms : List (Bytes × Bytes × JVal))
    (hms : ms.map (fun m => (m.1, m.2.1)) = localMembers codec v)
    (hall : ∀ m ∈ ms, quoteBody .read m.1 = m.1 ∧ toValidUTF8 0 m.1 = m.1 ∧
      ∀ (h : Nat) (rest' : Bytes), 2 * m.2.1.length + 2 ≤ h →
        parseValue h (m.2.1 ++ rest') = some (m.2.2, rest'))
    (hlen : ms ≠ [] ∧ ms.length ≤ 3) :
    parseJSON (MarshalLocal codec v) = some (.object (ms.map (fun m => (m.1, m.2.2)))) := by
  have hmem := parseMembers_writeMembers ms
    (2 * (writeMembers (localMembers codec v)).length + 2)
    (2 * (writeMembers (localMembers codec v)).length + 5) [] hlen.1 (by omega)
    (by
      intro m hm
      obtain ⟨hq, hk, hval⟩ := hall m hm
      refine ⟨hq, hk, fun h rest' hh => hval h rest' ?_⟩
      have hin : (m.1, m.2.1) ∈ localMembers codec v := by
        rw [← hms]
        exact List.mem_map.mpr ⟨m, hm, rfl⟩
      have := writeMembers_length_le (localMembers codec v) (m.1, m.2.1) hin
      simp only [] at this
      omega)
  rw [hms] at hmem
  obtain ⟨X, hX⟩ : ∃ X, writeMembers (localMembers codec v) = 0x22 :: X := by
    rw [← hms]
    rcases ms with _ | ⟨m, _ | ⟨m', tail⟩⟩
    · exact absurd rfl hlen.1
    · exact ⟨_, by simp [writeMembers, quoteString]; rfl⟩
    · exact ⟨_, by simp [writeMembers, quoteString]; rfl⟩
  have hfuel : 2 * (MarshalLocal codec v).length + 2 =
      (2 * (writeMembers (localMembers codec v)).length + 5) + 1 := by
    simp [MarshalLocal]
    omega
  unfold parseJSON
  rw [hfuel]
  simp only [MarshalLocal, parseValue, List.cons_append]
  rw [skipSpace_cons 0x7B _ (by decide)]
  rw [hX] at hmem ⊢
  simp only [List.cons_append]
  rw [skipSpace_cons 0x22 _ (by decide)]
  simp only [List.cons_append, List.length_cons] at hmem
  simp [hmem, skipSpace]


theorem lookup_base64Signature :
    lookupField localFields (ascii "base64Signature") = some LocalField.Base64Signature := by
  rfl

theorem lookup_cert : lookupField localFields (ascii "cert") = some LocalField.Cert := by
  rfl

theorem lookup_rekorBundle :
    lookupField localFields (ascii "rekorBundle") = some LocalField.Bundle := by
  rfl

theorem parseValue_quoteString_fuel (s : Bytes) (h : Nat) (rest : Bytes)
    (hh : 2 * (quoteString s).length + 2 ≤ h) :
    parseValue h (quoteString s ++ rest) = some (.string (toValidUTF8 0 s), rest) := by
  obtain ⟨h', rfl⟩ : ∃ h', h = h' + 1 := ⟨h - 1, by omega⟩
  exact parseValue_quoteString h' s rest

theorem storeLocal_string (codec : BundleJSON RekorBundle)
    (p : LocalSignedPayload RekorBundle) (s : Bytes) :
    storeLocalMember codec (p, none) (ascii "base64Signature", .string s) =
        ({ p with Base64Signature := s }, none) ∧
      storeLocalMember codec (p, none) (ascii "cert", .string s) =
        ({ p with Cert := s }, none) := by
  constructor
  · simp only [storeLocalMember, lookup_base64Signature]
    rfl
  · simp only [storeLocalMember, lookup_cert]
    rfl

theorem storeLocal_bundle (codec : BundleJSON RekorBundle)
    (p : LocalSignedPayload RekorBundle) (j : JVal) (b : RekorBundle) (hj : j ≠ JVal.null)
    (hp : p.Bundle = none) (hstore : codec.store j codec.zero = (b, none)) :
    storeLocalMember codec (p, none) (ascii "rekorBundle", j) =
      ({ p with Bundle := some b }, none) := by
  simp only [storeLocalMember, lookup_rekorBundle]
  cases j with
  | null => exact absurd rfl hj
  | bool x => simp [hp, hstore, firstError]
  | number x => simp [hp, hstore, firstError]
  | string x => simp [hp, hstore, firstError]
  | array x => simp [hp, hstore, firstError]
  | object x => simp [hp, hstore, firstError]

/-- Loading a file that holds `json.Marshal(v)` gives `v` with its two strings
coerced to valid UTF-8, for a bundle that goes through `encoding/json`
unchanged. -/
theorem fetchLocal_marshal (codec : BundleJSON RekorBundle)
    (v : LocalSignedPayload RekorBundle) (readFile : String → Except GoError Bytes)
    (path : String) (hfile : readFile path = .ok (MarshalLocal codec v))
    (hb : ∀ b, v.Bundle = some b → codec.RoundTrips b) :
    FetchLocalSignedPayloadFromPath codec readFile path =
      ⟨some ⟨toValidUTF8 0 v.Base64Signature, toValidUTF8 0 v.Cert, v.Bundle⟩, none⟩ := by
  rcases v with ⟨sig, cert, bundle⟩
  have hk1 := key_base64Signature
  have hk2 := key_cert
  have hk3 := key_rekorBundle
  cases bundle with
  | none =>
    by_cases hc : cert = []
    · subst hc
      have hparse := parseJSON_MarshalLocal codec ⟨sig, [], none⟩
        [(ascii "base64Signature", quoteString sig, .string (toValidUTF8 0 sig))]
        (by simp [localMembers])
        (by
          intro m hm
          simp at hm
          subst hm
          exact ⟨hk1.1, hk1.2, fun h rest' hh => parseValue_quoteString_fuel sig h rest' hh⟩)
        (by simp)
      simp only [FetchLocalSignedPayloadFromPath, hfile, UnmarshalLocal, hparse]
      simp [(storeLocal_string codec _ _).1, toValidUTF8]
    · have hparse := parseJSON_MarshalLocal codec ⟨sig, cert, none⟩
        [(ascii "base64Signature", quoteString sig, .string (toValidUTF8 0 sig)),
          (ascii "cert", quoteString cert, .string (toValidUTF8 0 cert))]
        (by simp [localMembers, hc])
        (by
          intro m hm
          simp at hm
          rcases hm with hm | hm <;> subst hm
          · exact ⟨hk1.1, hk1.2, fun h rest' hh => parseValue_quoteString_fuel sig h rest' hh⟩
          · exact ⟨hk2.1, hk2.2, fun h rest' hh => parseValue_quoteString_fuel cert h rest' hh⟩)
        (by simp)
      simp only [FetchLocalSignedPayloadFromPath, hfile, UnmarshalLocal, hparse]
      simp [(storeLocal_string codec _ _).1, (storeLocal_string codec _ _).2]
  | some b =>
    obtain ⟨j, hj, hread, hstore⟩ := hb b rfl
    by_cases hc : cert = []
    · subst hc
      have hparse := parseJSON_MarshalLocal codec ⟨sig, [], some b⟩
        [(ascii "base64Signature", quoteString sig, .string (toValidUTF8 0 sig)),
          (ascii "rekorBundle", codec.Marshal b, j)]
        (by simp [localMembers])
        (by
          intro m hm
          simp at hm
          rcases hm with hm | hm <;> subst hm
          · exact ⟨hk1.1, hk1.2, fun h rest' hh => parseValue_quoteString_fuel sig h rest' hh⟩
          · exact ⟨hk3.1, hk3.2, fun h rest' hh => hread h rest' hh⟩)
        (by simp)
      simp only [FetchLocalSignedPayloadFromPath, hfile, UnmarshalLocal, hparse]
      simp [(storeLocal_string codec _ _).1,
        storeLocal_bundle codec ⟨toValidUTF8 0 sig, [], none⟩ j b hj rfl hstore, toValidUTF8]
    · have hparse := parseJSON_MarshalLocal codec ⟨sig, cert, some b⟩
        [(ascii "base64Signature", quoteString sig, .string (toValidUTF8 0 sig)),
          (ascii "cert", quoteString cert, .string (toValidUTF8 0 cert)),
          (ascii "rekorBundle", codec.Marshal b, j)]
        (by simp [localMembers, hc])
        (by
          intro m hm
          simp at hm
          rcases hm with hm | hm | hm <;> subst hm
          · exact ⟨hk1.1, hk1.2, fun h rest' hh => parseValue_quoteString_fuel sig h rest' hh⟩
          · exact ⟨hk2.1, hk2.2, fun h rest' hh => parseValue_quoteString_fuel cert h rest' hh⟩
          · exact ⟨hk3.1, hk3.2, fun h rest' hh => hread h rest' hh⟩)
        (by simp)
      simp only [FetchLocalSignedPayloadFromPath, hfile, UnmarshalLocal, hparse]
      simp [(storeLocal_string codec _ _).1, (storeLocal_string codec _ _).2,
        storeLocal_bundle codec ⟨toValidUTF8 0 sig, toValidUTF8 0 cert, none⟩ j b hj rfl hstore]

end MarshalLemmas


/-! ## The claims -/

section Claims

variable {Certificate RekorBundle : Type}

/-- C1. `FetchSignaturesForReference` preserves count and order: for a
reference whose signature collection enumerates as a non-empty list `l` all of
whose getters succeed, the call returns a nil error and the slice whose record
`i` holds the five values the getters of `l[i]` returned, whatever the order in
which the pool runs the worker closures. -/
theorem C1_signatures_keep_count_and_order (reg : Registry Certificate RekorBundle)
    (ctx : Context) (ref : Reference) (simg : SignedEntity Certificate RekorBundle)
    (sigs : Collection Certificate RekorBundle) (l : List (Signature Certificate RekorBundle))
    (schedule : List Nat)
    (hent : reg.SignedEntity ref = .ok simg) (hsigs : simg.Signatures = .ok sigs)
    (hget : sigs.Get = .ok l) (hne : l ≠ [])
    (hok : ∀ s ∈ l, s.Payload.err = none ∧ s.Base64Signature.err = none ∧
      s.Cert.err = none ∧ s.Chain.err = none ∧ s.Bundle.err = none)
    (hs : schedule.Perm (List.range l.length)) :
    FetchSignaturesForReference reg schedule ctx ref =
      ⟨some (l.map (fun s => ⟨s.Base64Signature.val, s.Payload.val, s.Cert.val, s.Chain.val,
        s.Bundle.val⟩)), none⟩ := by
  rw [fetchSignatures_run reg schedule ctx ref simg sigs l hent hsigs hget hne,
    sigPool_all_ok l hok schedule hs]

/-- C1 at a collection of two signatures whose closures complete in reverse
order. -/
theorem C1_witness :
    FetchSignaturesForReference (registryWith (imageWith [sigA, sigB] [])) [1, 0] liveCtx exRef =
      ⟨some ([sigA, sigB].map (fun s => ⟨s.Base64Signature.val, s.Payload.val, s.Cert.val,
        s.Chain.val, s.Bundle.val⟩)), none⟩ :=
  C1_signatures_keep_count_and_order (registryWith (imageWith [sigA, sigB] [])) liveCtx exRef
    (imageWith [sigA, sigB] []) ⟨.ok [sigA, sigB]⟩ [sigA, sigB] [1, 0] rfl rfl rfl
    (by simp) (by simp [sigA, sigB]) (by decide)

/-- C3. Empty collections are errors, never empty successes: on an empty
signature collection `FetchSignaturesForReference` returns a nil slice and the
error "no signatures associated with <ref>", on an empty attestation collection
`FetchAttestationsForReference` returns a nil slice and the error "no
attestations associated with <ref>"; and whenever either function returns a nil
error, the slice it returns has at least one element. -/
theorem C3_empty_collections_are_errors (reg : Registry Certificate RekorBundle)
    (schedule : List Nat) (ctx : Context) (ref : Reference) :
    (∀ simg sigs, reg.SignedEntity ref = .ok simg → simg.Signatures = .ok sigs →
        sigs.Get = .ok [] →
        FetchSignaturesForReference reg schedule ctx ref =
          ⟨none, some ⟨"no signatures associated with " ++ ref.String⟩⟩) ∧
    (∀ simg atts, reg.SignedEntity ref = .ok simg → simg.Attestations = .ok atts →
        atts.Get = .ok [] →
        FetchAttestationsForReference reg schedule ctx ref =
          ⟨none, some ⟨"no attestations associated with " ++ ref.String⟩⟩) ∧
    ((FetchSignaturesForReference reg schedule ctx ref).err = none →
        ∃ out, (FetchSignaturesForReference reg schedule ctx ref).val = some out ∧
          1 ≤ out.length) ∧
    ((FetchAttestationsForReference reg schedule ctx ref).err = none →
        ∃ out, (FetchAttestationsForReference reg schedule ctx ref).val = some out ∧
          1 ≤ out.length) := by
  refine ⟨?_, ?_, ?_, ?_⟩
  · intro simg sigs hent hsigs hget
    simp [FetchSignaturesForReference, hent, hsigs, hget]
  · intro simg atts hent hatts hget
    simp [FetchAttestationsForReference, hent, hatts, hget]
  · intro herr
    cases hent : reg.SignedEntity ref with
    | error e => simp [FetchSignaturesForReference, hent] at herr
    | ok simg =>
      cases hsigs : simg.Signatures with
      | error e => simp [FetchSignaturesForReference, hent, hsigs] at herr
      | ok sigs =>
        cases hget : sigs.Get with
        | error e => simp [FetchSignaturesForReference, hent, hsigs, hget] at herr
        | ok l =>
          by_cases hne : l = []
          · subst hne
            simp [FetchSignaturesForReference, hent, hsigs, hget] at herr
          · rw [fetchSignatures_run reg schedule ctx ref simg sigs l hent hsigs hget hne] at herr ⊢
            have hlen := sigPool_length l schedule
            rcases hp : poolWait (l.enum.map (fun p => sigClosure p.1 p.2)) schedule
                (List.replicate l.length SignedPayload.zero) with ⟨mem, err⟩
            rw [hp] at herr hlen ⊢
            cases err with
            | some e => simp at herr
            | none =>
              refine ⟨mem, rfl, ?_⟩
              have : l.length ≠ 0 := fun h => hne (List.length_eq_zero.mp h)
              simp only [] at hlen
              omega
  · intro herr
    cases hent : reg.SignedEntity ref with
    | error e => simp [FetchAttestationsForReference, hent] at herr
    | ok simg =>
      cases hatts : simg.Attestations with
      | error e => simp [FetchAttestationsForReference, hent, hatts] at herr
      | ok atts =>
        cases hget : atts.Get with
        | error e => simp [FetchAttestationsForReference, hent, hatts, hget] at herr
        | ok l =>
          by_cases hne : l = []
          · subst hne
            simp [FetchAttestationsForReference, hent, hatts, hget] at herr
          · rw [fetchAttestations_run reg schedule ctx ref simg atts l hent hatts hget hne]
              at herr ⊢
            have hlen := attPool_length l schedule
            rcases hp : poolWait (l.enum.map (fun p => attClosure p.1 p.2)) schedule
                (List.replicate l.length AttestationPayload.zero) with ⟨mem, err⟩
            rw [hp] at herr hlen ⊢
            cases err with
            | some e => simp at herr
            | none =>
              refine ⟨mem, rfl, ?_⟩
              have : l.length ≠ 0 := fun h => hne (List.length_eq_zero.mp h)
              simp only [] at hlen
              omega

/-- C3 at a reference with no signature and no attestation. -/
theorem C3_witness :
    FetchSignaturesForReference (registryWith (imageWith [] [])) [] liveCtx exRef =
        ⟨none, some ⟨"no signatures associated with registry.example/app:v1"⟩⟩ ∧
      FetchAttestationsForReference (registryWith (imageWith [] [])) [] liveCtx exRef =
        ⟨none, some ⟨"no attestations associated with registry.example/app:v1"⟩⟩ :=
  ⟨(C3_empty_collections_are_errors (registryWith (imageWith [] [])) [] liveCtx exRef).1
      (imageWith [] []) ⟨.ok []⟩ rfl rfl rfl,
    (C3_empty_collections_are_errors (registryWith (imageWith [] [])) [] liveCtx exRef).2.1
      (imageWith [] []) ⟨.ok []⟩ rfl rfl rfl⟩

/-- C4. Collection fetches are all-or-nothing. For a signature collection in
which a getter of at least one member returns an error,
`FetchSignaturesForReference` returns a nil slice and an error that some
getter of some member returned. For an attestation collection in which at
least one member's fetch fails (`Payload()` returns an error and no bytes, or
the bytes it returns do not unmarshal into an `AttestationPayload`),
`FetchAttestationsForReference` returns a nil slice and an error. Both hold in
whatever order the pool runs the worker closures. -/
theorem C4_collection_fetch_is_all_or_nothing (reg : Registry Certificate RekorBundle)
    (schedule : List Nat) (ctx : Context) (ref : Reference)
    (simg : SignedEntity Certificate RekorBundle) (hent : reg.SignedEntity ref = .ok simg) :
    (∀ sigs l, simg.Signatures = .ok sigs → sigs.Get = .ok l →
        schedule.Perm (List.range l.length) →
        (∃ s ∈ l, s.Payload.err ≠ none ∨ s.Base64Signature.err ≠ none ∨
          s.Cert.err ≠ none ∨ s.Chain.err ≠ none ∨ s.Bundle.err ≠ none) →
        ∃ e, FetchSignaturesForReference reg schedule ctx ref = ⟨none, some e⟩ ∧
          ∃ s ∈ l, s.Payload.err = some e ∨ s.Base64Signature.err = some e ∨
            s.Cert.err = some e ∨ s.Chain.err = some e ∨ s.Bundle.err = some e) ∧
    (∀ atts l, simg.Attestations = .ok atts → atts.Get = .ok l →
        schedule.Perm (List.range l.length) →
        (∃ a ∈ l, (a.Payload.err ≠ none ∧ a.Payload.val = []) ∨
          (UnmarshalAttestation a.Payload.val AttestationPayload.zero).2 ≠ none) →
        ∃ e, FetchAttestationsForReference reg schedule ctx ref = ⟨none, some e⟩) := by
  constructor
  · intro sigs l hsigs hget hs hfail
    have hne : l ≠ [] := by
      obtain ⟨s, hsl, _⟩ := hfail
      exact List.ne_nil_of_mem hsl
    obtain ⟨e, he, hsrc⟩ := sigPool_fails l schedule hs hfail
    refine ⟨e, ?_, hsrc⟩
    rw [fetchSignatures_run reg schedule ctx ref simg sigs l hent hsigs hget hne]
    rcases hp : poolWait (l.enum.map (fun p => sigClosure p.1 p.2)) schedule
        (List.replicate l.length SignedPayload.zero) with ⟨mem, err⟩
    rw [hp] at he ⊢
    simp only [] at he
    subst he
    rfl
  · intro atts l hatts hget hs hfail
    have hne : l ≠ [] := by
      obtain ⟨a, hal, _⟩ := hfail
      exact List.ne_nil_of_mem hal
    have hfail2 : ∃ a ∈ l,
        (UnmarshalAttestation a.Payload.val AttestationPayload.zero).2 ≠ none := by
      obtain ⟨a, hal, h⟩ := hfail
      refine ⟨a, hal, ?_⟩
      rcases h with ⟨_, hnil⟩ | h
      · rw [hnil]
        simp [UnmarshalAttestation, parseJSON, parseValue, skipSpace]
      · exact h
    have hbad := attPool_fails l schedule hs hfail2
    rw [fetchAttestations_run reg schedule ctx ref simg atts l hent hatts hget hne]
    rcases hp : poolWait (l.enum.map (fun p => attClosure p.1 p.2)) schedule
        (List.replicate l.length AttestationPayload.zero) with ⟨mem, err⟩
    rw [hp] at hbad ⊢
    cases err with
    | none => exact absurd rfl hbad
    | some e => exact ⟨e, rfl⟩

/-- C4 at three signatures of which the second has a failing `Cert()`, and at
three attestations of which the second is malformed JSON. -/
theorem C4_witness :
    (∃ e, FetchSignaturesForReference
          (registryWith (imageWith [sigA, sigBad, sigB] [attGood, attMalformed, attGood]))
          [2, 0, 1] liveCtx exRef = ⟨none, some e⟩ ∧
        ∃ s ∈ [sigA, sigBad, sigB], s.Payload.err = some e ∨ s.Base64Signature.err = some e ∨
          s.Cert.err = some e ∨ s.Chain.err = some e ∨ s.Bundle.err = some e) ∧
      (∃ e, FetchAttestationsForReference
          (registryWith (imageWith [sigA, sigBad, sigB] [attGood, attMalformed, attGood]))
          [2, 0, 1] liveCtx exRef = ⟨none, some e⟩) :=
  ⟨(C4_collection_fetch_is_all_or_nothing
        (registryWith (imageWith [sigA, sigBad, sigB] [attGood, attMalformed, attGood]))
        [2, 0, 1] liveCtx exRef
        (imageWith [sigA, sigBad, sigB] [attGood, attMalformed, attGood]) rfl).1
      ⟨.ok [sigA, sigBad, sigB]⟩ [sigA, sigBad, sigB] rfl rfl (by decide)
      ⟨sigBad, by simp, by simp [sigBad]⟩,
    (C4_collection_fetch_is_all_or_nothing
        (registryWith (imageWith [sigA, sigBad, sigB] [attGood, attMalformed, attGood]))
        [2, 0, 1] liveCtx exRef
        (imageWith [sigA, sigBad, sigB] [attGood, attMalformed, attGood]) rfl).2
      ⟨.ok [attGood, attMalformed, attGood]⟩ [attGood, attMalformed, attGood] rfl rfl
      (by decide) ⟨attMalformed, by simp, Or.inr (by decide)⟩⟩

/-- C7, as stated, fails: with a context that is cancelled before the call,
both collection fetches still return their result slice and a nil error. -/
theorem C7_counterexample :
    cancelledCtx.Err 0 = some ⟨"context canceled"⟩ ∧
      FetchSignaturesForReference (registryWith (imageWith [sigA, sigB] [attGood])) [0, 1]
          cancelledCtx exRef =
        ⟨some [⟨ascii "c2lnLWE=", ascii "payload-a", some 1, [1, 2], none⟩,
          ⟨ascii "c2lnLWI=", ascii "payload-b", none, [], some 7⟩], none⟩ ∧
      FetchAttestationsForReference (registryWith (imageWith [sigA, sigB] [attGood])) [0]
          cancelledCtx exRef =
        ⟨some [⟨ascii "t", ascii "cA==", some [⟨ascii "k", ascii "s"⟩]⟩], none⟩ := by
  refine ⟨rfl, ?_, ?_⟩ <;> decide

/-- C7, amended. The collection fetches do not consult their context: for the
same registry behaviour and the same completion order, the result is the same
whatever the context reports. -/
theorem C7_context_is_not_consulted (reg : Registry Certificate RekorBundle)
    (schedule : List Nat) (ctx ctx' : Context) (ref : Reference) :
    FetchSignaturesForReference reg schedule ctx ref =
        FetchSignaturesForReference reg schedule ctx' ref ∧
      FetchAttestationsForReference reg schedule ctx ref =
        FetchAttestationsForReference reg schedule ctx' ref :=
  ⟨rfl, rfl⟩

/-- C8. In the attestation worker the error of `att.Payload()` is dropped: two
members whose `Payload()` returns the same bytes give the same worker outcome
whatever error comes with the bytes, and the worker's error is the error of
`json.Unmarshal` on these bytes, its slot what `json.Unmarshal` leaves. -/
theorem C8_attestation_worker_drops_payload_error (i : Nat)
    (att att' : Signature Certificate RekorBundle) (mem : List AttestationPayload)
    (slot : AttestationPayload) (hbytes : att.Payload.val = att'.Payload.val)
    (hslot : mem[i]? = some slot) :
    attClosure i att mem = attClosure i att' mem ∧
      (attClosure i att mem).2 = (UnmarshalAttestation att.Payload.val slot).2 ∧
      (attClosure i att mem).1 = mem.set i (UnmarshalAttestation att.Payload.val slot).1 := by
  refine ⟨?_, ?_, ?_⟩
  · simp [attClosure, hbytes]
  · simp [attClosure, hslot]
  · simp [attClosure, hslot]

/-- C8 at a member whose `Payload()` returns an error beside well-formed
bytes: the worker is the one of the member that returns the bytes alone, and
it succeeds. -/
theorem C8_witness :
    (attClosure 0 attErrWithBytes [AttestationPayload.zero] =
        attClosure 0 (attOf ⟨attErrWithBytes.Payload.val, none⟩) [AttestationPayload.zero] ∧
      (attClosure 0 attErrWithBytes [AttestationPayload.zero]).2 =
        (UnmarshalAttestation attErrWithBytes.Payload.val AttestationPayload.zero).2 ∧
      (attClosure 0 attErrWithBytes [AttestationPayload.zero]).1 =
        [AttestationPayload.zero].set 0
          (UnmarshalAttestation attErrWithBytes.Payload.val AttestationPayload.zero).1) ∧
      attErrWithBytes.Payload.err = some ⟨"layer read failed"⟩ ∧
      (attClosure 0 attErrWithBytes [AttestationPayload.zero]).2 = none :=
  ⟨C8_attestation_worker_drops_payload_error 0 attErrWithBytes
      (attOf ⟨attErrWithBytes.Payload.val, none⟩) [AttestationPayload.zero]
      AttestationPayload.zero rfl rfl, rfl, by decide⟩

/-- C6. `FetchAttachmentFromIndex` rejects an entity that is not an index: it
returns a nil payload and the error "<ref> is not an index", and the only call
it makes is the one that opens the entity at the reference. -/
theorem C6_non_index_is_rejected (format : Platform → String)
    (reg : Registry Certificate RekorBundle) (ctx : Context) (ref : Reference)
    (platform : Platform) (attachment : String) (sidx : SignedEntity Certificate RekorBundle)
    (hent : reg.SignedEntity ref = .ok sidx) (hidx : sidx.IndexManifest = none) :
    FetchAttachmentFromIndex format reg ctx ref platform attachment =
      (.returned ⟨none, some ⟨ref.String ++ " is not an index"⟩⟩, [.SignedEntity ref]) := by
  simp [FetchAttachmentFromIndex, hent, hidx]

/-- C6 at a single image. -/
theorem C6_witness :
    FetchAttachmentFromIndex exFormat (registryWith (imageWith [sigA] [])) liveCtx exRef arm64
        "sbom" =
      (.returned ⟨none, some ⟨"registry.example/app:v1 is not an index"⟩⟩,
        [.SignedEntity exRef]) :=
  C6_non_index_is_rejected exFormat (registryWith (imageWith [sigA] [])) liveCtx exRef arm64
    "sbom" (imageWith [sigA] []) rfl rfl

/-- C2. `FetchAttachmentFromIndex` selects the first matching child. For an
index all of whose descriptors carry a platform: if `d` is the first descriptor
in manifest order whose platform is the requested one, the call opens the
entity at the digest of `d` in the repository of the original reference and
returns what fetching the named attachment of that child returns, its payload
bytes and media type when the child's calls succeed, and no other child is
opened; if no descriptor has the requested platform, it returns a nil payload
and the error "no child with platform ... in index ..." after reading the
manifest. A platform matches only when all of its fields agree with the
requested one. -/
theorem C2_first_matching_child_is_selected (format : Platform → String)
    (reg : Registry Certificate RekorBundle) (ctx : Context) (ref : Reference)
    (platform : Platform) (attachment : String) (sidx : SignedEntity Certificate RekorBundle)
    (im : IndexManifest) (hent : reg.SignedEntity ref = .ok sidx)
    (hidx : sidx.IndexManifest = some (.ok im))
    (hall : ∀ d ∈ im.Manifests, d.Platform ≠ none) :
    (∀ d, im.Manifests.find? (fun x => decide (x.Platform = some platform)) = some d →
        FetchAttachmentFromIndex format reg ctx ref platform attachment =
          (.returned (FetchAttachmentForReference reg ctx (Digest ref.Context d.Digest)
              attachment).1,
            [.SignedEntity ref, .IndexManifest] ++
              (FetchAttachmentForReference reg ctx (Digest ref.Context d.Digest)
                attachment).2) ∧
        ∀ simg file payload mt, reg.SignedEntity (Digest ref.Context d.Digest) = .ok simg →
          simg.Attachment attachment = .ok file → file.Payload = .ok payload →
          file.FileMediaType = .ok mt →
          FetchAttachmentFromIndex format reg ctx ref platform attachment =
            (.returned ⟨some ⟨payload, mt⟩, none⟩,
              [.SignedEntity ref, .IndexManifest, .SignedEntity (Digest ref.Context d.Digest),
                .Attachment attachment, .Payload, .FileMediaType])) ∧
    ((∀ d ∈ im.Manifests, d.Platform ≠ some platform) →
        FetchAttachmentFromIndex format reg ctx ref platform attachment =
          (.returned ⟨none, some ⟨"no child with platform " ++ format platform ++
            " in index " ++ ref.String⟩⟩, [.SignedEntity ref, .IndexManifest])) ∧
    (∀ q : Platform, q.Equals platform = true ↔
        q.OS = platform.OS ∧ q.Architecture = platform.Architecture ∧
          q.Variant = platform.Variant ∧ q.OSVersion = platform.OSVersion) := by
  refine ⟨?_, ?_, fun q => Platform.Equals_iff q platform⟩
  · intro d hfind
    have hscan := scanManifests_found format reg ctx ref platform attachment d im.Manifests
      hall hfind
    have hmain : FetchAttachmentFromIndex format reg ctx ref platform attachment =
        (.returned (FetchAttachmentForReference reg ctx (Digest ref.Context d.Digest)
            attachment).1,
          [.SignedEntity ref, .IndexManifest] ++
            (FetchAttachmentForReference reg ctx (Digest ref.Context d.Digest)
              attachment).2) := by
      simp only [FetchAttachmentFromIndex, hent, hidx, hscan]
    refine ⟨hmain, ?_⟩
    intro simg file payload mt h1 h2 h3 h4
    rw [hmain]
    simp [FetchAttachmentForReference, h1, h2, attachmentPayload, h3, h4]
  · intro hno
    have hscan := scanManifests_none format reg ref platform attachment im.Manifests hall hno
    simp only [FetchAttachmentFromIndex, hent, hidx, hscan]
    rfl

/-- C2 at an index with children for `linux/amd64` and `linux/arm64`, each
with an SBOM of its own media type: `linux/arm64` yields the SBOM of the second
child, and a platform that differs in its variant alone yields the error. -/
theorem C2_witness :
    FetchAttachmentFromIndex exFormat
        (indexRegistry [⟨"sha256:aaa", some amd64⟩, ⟨"sha256:bbb", some arm64⟩]) liveCtx exRef
        arm64 "sbom" =
      (.returned ⟨some ⟨ascii "sbom-arm64", "application/vnd.cyclonedx+json"⟩, none⟩,
        [.SignedEntity exRef, .IndexManifest,
          .SignedEntity (.digest "registry.example/app" "sha256:bbb"),
          .Attachment "sbom", .Payload, .FileMediaType]) ∧
      FetchAttachmentFromIndex exFormat
        (indexRegistry [⟨"sha256:aaa", some amd64⟩, ⟨"sha256:bbb", some arm64⟩]) liveCtx exRef
        ⟨"linux", "arm64", "v8", ""⟩ "sbom" =
      (.returned ⟨none, some ⟨"no child with platform linux/arm64 in index " ++
        "registry.example/app:v1"⟩⟩, [.SignedEntity exRef, .IndexManifest]) :=
  ⟨((C2_first_matching_child_is_selected exFormat
        (indexRegistry [⟨"sha256:aaa", some amd64⟩, ⟨"sha256:bbb", some arm64⟩]) liveCtx exRef
        arm64 "sbom" (indexWith [⟨"sha256:aaa", some amd64⟩, ⟨"sha256:bbb", some arm64⟩])
        ⟨[⟨"sha256:aaa", some amd64⟩, ⟨"sha256:bbb", some arm64⟩]⟩ rfl rfl (by decide)).1
      ⟨"sha256:bbb", some arm64⟩ (by decide)).2
      (imageWithSBOM (ascii "sbom-arm64") "application/vnd.cyclonedx+json")
      ⟨.ok (ascii "sbom-arm64"), .ok "application/vnd.cyclonedx+json"⟩ (ascii "sbom-arm64")
      "application/vnd.cyclonedx+json" rfl rfl rfl rfl,
    (C2_first_matching_child_is_selected exFormat
        (indexRegistry [⟨"sha256:aaa", some amd64⟩, ⟨"sha256:bbb", some arm64⟩]) liveCtx exRef
        ⟨"linux", "arm64", "v8", ""⟩ "sbom"
        (indexWith [⟨"sha256:aaa", some amd64⟩, ⟨"sha256:bbb", some arm64⟩])
        ⟨[⟨"sha256:aaa", some amd64⟩, ⟨"sha256:bbb", some arm64⟩]⟩ rfl rfl (by decide)).2.1
      (by decide)⟩

/-- C9, evaluated where it fails: on an index whose first descriptor carries no
platform, the scan dereferences the nil pointer and the call panics, although a
later descriptor has the requested platform. -/
theorem C9_nil_platform_panics :
    FetchAttachmentFromIndex exFormat
        (indexRegistry [⟨"sha256:ccc", none⟩, ⟨"sha256:bbb", some arm64⟩]) liveCtx exRef
        arm64 "sbom" =
      (.panicked, [.SignedEntity exRef, .IndexManifest]) := by
  rfl

/-- C10, evaluated where it fails: for a file that holds the JSON literal
`null`, `FetchLocalSignedPayloadFromPath` returns a nil payload together with a
nil error. -/
theorem C10_null_file_yields_nil_payload_and_nil_error :
    FetchLocalSignedPayloadFromPath unitCodec (fun _ => .ok (ascii "null")) "payload.json" =
      ⟨none, none⟩ := by
  rfl

/-- C5, as stated, fails: a payload whose `Base64Signature` is the one byte
`0xFF`, not valid UTF-8, is written with that byte replaced by U+FFFD and loads
back as a different payload. -/
theorem C5_counterexample :
    FetchLocalSignedPayloadFromPath unitCodec
        (fun _ => .ok (MarshalLocal unitCodec ⟨[0xFF], [], none⟩)) "payload.json" =
      ⟨some ⟨[0xEF, 0xBF, 0xBD], [], none⟩, none⟩ ∧
      (⟨[0xEF, 0xBF, 0xBD], [], none⟩ : LocalSignedPayload Unit) ≠ ⟨[0xFF], [], none⟩ := by
  decide

/-- C5, amended. `FetchLocalSignedPayloadFromPath` round-trips every
`LocalSignedPayload` whose `Base64Signature` and `Cert` are valid UTF-8 (the
empty `Cert`, left out of the JSON, included) and whose `Bundle` is nil or goes
through `encoding/json` unchanged: if the file holds `json.Marshal(v)`, loading
it returns a nil error and a payload equal to `v` field for field. -/
theorem C5_local_payload_round_trips (codec : BundleJSON RekorBundle)
    (v : LocalSignedPayload RekorBundle) (readFile : String → Except GoError Bytes)
    (path : String) (hfile : readFile path = .ok (MarshalLocal codec v))
    (hsig : validUTF8 0 v.Base64Signature = true) (hcert : validUTF8 0 v.Cert = true)
    (hb : ∀ b, v.Bundle = some b → codec.RoundTrips b) :
    FetchLocalSignedPayloadFromPath codec readFile path = ⟨some v, none⟩ := by
  rw [fetchLocal_marshal codec v readFile path hfile hb,
    toValidUTF8_of_valid _ 0 hsig, toValidUTF8_of_valid _ 0 hcert]

/-- C5, amended, at a payload with a signature, a certificate with a line
break and a non-ASCII letter, and a bundle. -/
theorem C5_witness :
    FetchLocalSignedPayloadFromPath unitCodec
        (fun _ => .ok (MarshalLocal unitCodec
          ⟨ascii "MEUCIQ==", ascii "-----BEGIN-----\n" ++ [0xC3, 0xA9], some ()⟩))
        "payload.json" =
      ⟨some ⟨ascii "MEUCIQ==", ascii "-----BEGIN-----\n" ++ [0xC3, 0xA9], some ()⟩, none⟩ :=
  C5_local_payload_round_trips unitCodec
    ⟨ascii "MEUCIQ==", ascii "-----BEGIN-----\n" ++ [0xC3, 0xA9], some ()⟩
    (fun _ => .ok (MarshalLocal unitCodec
      ⟨ascii "MEUCIQ==", ascii "-----BEGIN-----\n" ++ [0xC3, 0xA9], some ()⟩))
    "payload.json" rfl (by decide) (by decide)
    (fun b _ => ⟨.object [], by simp, by
      intro fuel rest hf
      obtain ⟨f, rfl⟩ : ∃ f, fuel = f + 1 := ⟨fuel - 1, by omega⟩
      simp [unitCodec, ascii, parseValue, skipSpace, isSpace], rfl⟩)

/-- X1. `FetchLocalSignedPayloadFromPath` returns a nil payload together with a
nil error exactly when the file can be read and its content is the JSON value
`null`; it never returns a payload together with an error. -/
theorem X1_local_nil_with_nil_only_for_null (codec : BundleJSON RekorBundle)
    (readFile : String → Except GoError Bytes) (path : String) :
    (((FetchLocalSignedPayloadFromPath codec readFile path).val = none ∧
        (FetchLocalSignedPayloadFromPath codec readFile path).err = none) ↔
      ∃ contents, readFile path = .ok contents ∧ parseJSON contents = some .null) ∧
    ((FetchLocalSignedPayloadFromPath codec readFile path).val ≠ none →
      (FetchLocalSignedPayloadFromPath codec readFile path).err = none) := by
  unfold FetchLocalSignedPayloadFromPath
  cases hr : readFile path with
  | error e => simp
  | ok contents =>
    simp only [UnmarshalLocal]
    cases hp : parseJSON contents with
    | none => simp [hp]
    | some j =>
      cases j with
      | null => simp [hp]
      | bool x => simp [hp]
      | number x => simp [hp]
      | string x => simp [hp]
      | array x => simp [hp]
      | object ms =>
        simp only []
        cases he : (List.foldl (storeLocalMember codec)
            ((none : Option (LocalSignedPayload RekorBundle)).getD ⟨[], [], none⟩, none) ms).2 with
        | none => simp [hp]
        | some e => simp [hp]

/-- X2. `FetchAttachmentFromIndex` panics whenever the scan reaches a descriptor
without platform info: every descriptor before it carries a platform other
than the requested one. -/
theorem X2_scan_panics_at_descriptor_without_platform (format : Platform → String)
    (reg : Registry Certificate RekorBundle) (ctx : Context) (ref : Reference)
    (platform : Platform) (attachment : String) (sidx : SignedEntity Certificate RekorBundle)
    (im : IndexManifest) (pre post : List Descriptor) (d : Descriptor)
    (hent : reg.SignedEntity ref = .ok sidx) (hidx : sidx.IndexManifest = some (.ok im))
    (him : im.Manifests = pre ++ d :: post)
    (hpre : ∀ x ∈ pre, ∃ q, x.Platform = some q ∧ q ≠ platform)
    (hd : d.Platform = none) :
    FetchAttachmentFromIndex format reg ctx ref platform attachment =
      (.panicked, [.SignedEntity ref, .IndexManifest]) := by
  have hscan : ∀ pre : List Descriptor, (∀ x ∈ pre, ∃ q, x.Platform = some q ∧ q ≠ platform) →
      scanManifests format reg ref platform attachment (pre ++ d :: post) = (.panicked, []) := by
    intro pre
    induction pre with
    | nil => intro _; simp [scanManifests, hd]
    | cons x rest ih =>
      intro hpre
      obtain ⟨q, hq, hne⟩ := hpre x (List.mem_cons_self _ _)
      have he : q.Equals platform = false := by
        cases h : q.Equals platform with
        | false => rfl
        | true => exact absurd ((Platform.Equals_iff_eq q platform).mp h) hne
      rw [List.cons_append]
      unfold scanManifests
      simp only [hq, he, Bool.not_false, if_true]
      exact ih (fun y hy => hpre y (List.mem_cons_of_mem _ hy))
  simp only [FetchAttachmentFromIndex, hent, hidx, him, hscan pre hpre]
  rfl

/-- X2 at an index whose second descriptor carries no platform and whose third
has the requested one. -/
theorem X2_witness :
    FetchAttachmentFromIndex exFormat
        (indexRegistry [⟨"sha256:aaa", some amd64⟩, ⟨"sha256:ccc", none⟩,
          ⟨"sha256:bbb", some arm64⟩]) liveCtx exRef arm64 "sbom" =
      (.panicked, [.SignedEntity exRef, .IndexManifest]) :=
  X2_scan_panics_at_descriptor_without_platform exFormat
    (indexRegistry [⟨"sha256:aaa", some amd64⟩, ⟨"sha256:ccc", none⟩,
      ⟨"sha256:bbb", some arm64⟩]) liveCtx exRef arm64 "sbom"
    (indexWith [⟨"sha256:aaa", some amd64⟩, ⟨"sha256:ccc", none⟩, ⟨"sha256:bbb", some arm64⟩])
    ⟨[⟨"sha256:aaa", some amd64⟩, ⟨"sha256:ccc", none⟩, ⟨"sha256:bbb", some arm64⟩]⟩
    [⟨"sha256:aaa", some amd64⟩] [⟨"sha256:bbb", some arm64⟩] ⟨"sha256:ccc", none⟩
    rfl rfl rfl (by decide) rfl

/-- X3. Loading a file that holds `json.Marshal(v)` returns `v` with its
`Base64Signature` and `Cert` coerced to valid UTF-8, each byte outside a
well-formed sequence replaced by U+FFFD, for every payload whose bundle is nil
or goes through `encoding/json` unchanged. -/
theorem X3_local_payload_loads_back_coerced (codec : BundleJSON RekorBundle)
    (v : LocalSignedPayload RekorBundle) (readFile : String → Except GoError Bytes)
    (path : String) (hfile : readFile path = .ok (MarshalLocal codec v))
    (hb : ∀ b, v.Bundle = some b → codec.RoundTrips b) :
    FetchLocalSignedPayloadFromPath codec readFile path =
      ⟨some ⟨toValidUTF8 0 v.Base64Signature, toValidUTF8 0 v.Cert, v.Bundle⟩, none⟩ :=
  fetchLocal_marshal codec v readFile path hfile hb

/-- X3 at a signature with a stray byte between two letters. -/
theorem X3_witness :
    FetchLocalSignedPayloadFromPath unitCodec
        (fun _ => .ok (MarshalLocal unitCodec ⟨[0x41, 0xFF, 0x42], [], none⟩)) "payload.json" =
      ⟨some ⟨toValidUTF8 0 [0x41, 0xFF, 0x42], toValidUTF8 0 [], none⟩, none⟩ ∧
      toValidUTF8 0 [0x41, 0xFF, 0x42] = [0x41, 0xEF, 0xBF, 0xBD, 0x42] :=
  ⟨X3_local_payload_loads_back_coerced unitCodec ⟨[0x41, 0xFF, 0x42], [], none⟩
      (fun _ => .ok (MarshalLocal unitCodec ⟨[0x41, 0xFF, 0x42], [], none⟩)) "payload.json"
      rfl (fun b hb => by simp at hb), by decide⟩

end Claims

end Cosign
